import Mathlib

/-!
# libhx2 — verification of the specification against the source

Shallow embedding of the libhx2 library (container codec for `.hx` audio
asset files): the byte-stream layer (`stream.c`), the audio codecs
(`codec.c`), and the container layer (`hx2.c`).  Machine integers are
modelled as `Nat` with explicit reductions modulo `2^w` where the C code
can overflow; byte buffers are modelled as total functions `Nat → Nat`
returning bytes (`< 256`); freshly allocated memory is modelled as
zero-filled.  The library is modelled as compiled for a little-endian
host (the value of `HX_NATIVE_ENDIAN` in `stream.h` on the reference
platform), so pointer-cast layouts (`stream_rwcuuid`) follow the
little-endian in-memory representation.
-/

namespace HX2

/-- Byte order of a stream or of the host (`HX_BIG_ENDIAN` / `HX_LITTLE_ENDIAN`). -/
inductive Endian where
  | little
  | big
deriving DecidableEq, Repr

/-- Stream direction flag (`STREAM_MODE_READ` / `STREAM_MODE_WRITE`). -/
inductive Mode where
  | read
  | write
deriving DecidableEq, Repr

/-- `HX_NATIVE_ENDIAN`: the byte order of the host the library is compiled
for; we model the reference little-endian host. -/
def HX_NATIVE_ENDIAN : Endian := .little

/-- `HX_BYTESWAP16`: the C macro truncates its operand to 16 bits and swaps
the two bytes. -/
def HX_BYTESWAP16 (n : Nat) : Nat := n % 256 * 256 + n % 65536 / 256

/-- `HX_BYTESWAP32`: swap of the two 16-bit halves, each byte-swapped
(faithful for operands `< 2^32`, the width of the C type). -/
def HX_BYTESWAP32 (n : Nat) : Nat := HX_BYTESWAP16 n * 65536 + HX_BYTESWAP16 (n / 65536)

/-- `stream_t` (stream.h): a cursor over a byte buffer.  The buffer is a
total function from positions to bytes. -/
structure stream_t where
  mode : Mode
  size : Nat
  pos : Nat
  endianness : Endian
  buf : Nat → Nat

/-- Write a list of bytes into a buffer at position `p` (each stored
reduced mod 256, as a C `char` array holds bytes). -/
def writeBytes (f : Nat → Nat) (p : Nat) : List Nat → (Nat → Nat)
  | [] => f
  | b :: bs => writeBytes (fun i => if i = p then b % 256 else f i) (p + 1) bs

/-- Read `n` bytes from a buffer starting at position `p`. -/
def readBytes (f : Nat → Nat) (p n : Nat) : List Nat :=
  (List.range n).map fun i => f (p + i) % 256

/-- View a concrete byte list as a buffer (reads past the end return 0). -/
def bufOfList (l : List Nat) : Nat → Nat := fun i => l.getD i 0

/-- `stream_create`. -/
def stream_create (data : Nat → Nat) (size : Nat) (mode : Mode) (endianness : Endian) :
    stream_t :=
  { buf := data, size := size, pos := 0, mode := mode, endianness := endianness }

/-- `stream_alloc`: fresh zeroed buffer. -/
def stream_alloc (size : Nat) (mode : Mode) (endianness : Endian) : stream_t :=
  stream_create (fun _ => 0) size mode endianness

/-- `doswap(s, mode)`: whether a byte swap is performed. -/
def doswap (s : stream_t) (m : Mode) : Bool :=
  decide (s.endianness ≠ HX_NATIVE_ENDIAN ∧ s.mode = m)

/-- `stream_seek`. -/
def stream_seek (s : stream_t) (pos : Nat) : stream_t := { s with pos := pos }

/-- `stream_advance` (used only with non-negative offsets in the library). -/
def stream_advance (s : stream_t) (offset : Nat) : stream_t := { s with pos := s.pos + offset }

/-- `stream_rw(s, data, size)`: in read mode copy `size` bytes from the
stream into the front of the caller's buffer; in write mode copy `size`
bytes from the caller's buffer into the stream.  Both advance the cursor. -/
def stream_rw (s : stream_t) (data : List Nat) (n : Nat) : stream_t × List Nat :=
  match s.mode with
  | .read => (stream_advance s n, readBytes s.buf s.pos n ++ data.drop n)
  | .write =>
      ({ stream_advance s n with buf := writeBytes s.buf s.pos ((data ++ List.replicate n 0).take n) },
       data)

/-- In-memory byte representation of a 16-bit value on a host with byte
order `e` (what `memcpy` of an `unsigned short` transfers). -/
def natBytes16 (e : Endian) (v : Nat) : List Nat :=
  match e with
  | .little => [v % 256, v / 256 % 256]
  | .big => [v / 256 % 256, v % 256]

/-- Value of two in-memory bytes read back as a 16-bit variable. -/
def natFromBytes16 (e : Endian) (bs : List Nat) : Nat :=
  match e with
  | .little => bs.getD 0 0 % 256 + bs.getD 1 0 % 256 * 256
  | .big => bs.getD 0 0 % 256 * 256 + bs.getD 1 0 % 256

/-- In-memory byte representation of a 32-bit value on a host with byte
order `e`. -/
def natBytes32 (e : Endian) (v : Nat) : List Nat :=
  match e with
  | .little => [v % 256, v / 256 % 256, v / 65536 % 256, v / 16777216 % 256]
  | .big => [v / 16777216 % 256, v / 65536 % 256, v / 256 % 256, v % 256]

/-- Value of four in-memory bytes read back as a 32-bit variable. -/
def natFromBytes32 (e : Endian) (bs : List Nat) : Nat :=
  match e with
  | .little =>
      bs.getD 0 0 % 256 + bs.getD 1 0 % 256 * 256 + bs.getD 2 0 % 256 * 65536 +
        bs.getD 3 0 % 256 * 16777216
  | .big =>
      bs.getD 0 0 % 256 * 16777216 + bs.getD 1 0 % 256 * 65536 + bs.getD 2 0 % 256 * 256 +
        bs.getD 3 0 % 256

/-- `stream_rw8`: returns the stream and the caller's variable after the
call. -/
def stream_rw8 (s : stream_t) (v : Nat) : stream_t × Nat :=
  let r := stream_rw s [v % 256] 1
  (r.1, r.2.getD 0 0 % 256)

/-- `stream_rw16`: swap before the copy in write mode, after it in read
mode; the second swap in write mode restores the caller's variable. -/
def stream_rw16 (s : stream_t) (v : Nat) : stream_t × Nat :=
  let v1 := if doswap s .write then HX_BYTESWAP16 v else v
  let r := stream_rw s (natBytes16 HX_NATIVE_ENDIAN v1) 2
  let v2 := natFromBytes16 HX_NATIVE_ENDIAN r.2
  (r.1, if doswap s .read || doswap s .write then HX_BYTESWAP16 v2 else v2)

/-- `stream_rw32`. -/
def stream_rw32 (s : stream_t) (v : Nat) : stream_t × Nat :=
  let v1 := if doswap s .write then HX_BYTESWAP32 v else v
  let r := stream_rw s (natBytes32 HX_NATIVE_ENDIAN v1) 4
  let v2 := natFromBytes32 HX_NATIVE_ENDIAN r.2
  (r.1, if doswap s .read || doswap s .write then HX_BYTESWAP32 v2 else v2)

/-- `stream_rwfloat`: identical to `stream_rw32` on the 32-bit pattern of
the float. -/
def stream_rwfloat (s : stream_t) (v : Nat) : stream_t × Nat := stream_rw32 s v

/-- `stream_rwcuuid`: two 32-bit transfers on the halves of the 64-bit
value; on the little-endian host `(unsigned int*)cuuid + 1` is the high
half and `(unsigned int*)cuuid + 0` the low half. -/
def stream_rwcuuid (s : stream_t) (v : Nat) : stream_t × Nat :=
  let r1 := stream_rw32 s (v / 4294967296 % 4294967296)
  let r2 := stream_rw32 r1.1 (v % 4294967296)
  (r2.1, r2.2 + r1.2 * 4294967296)

/-- Bytes of a 32-bit value as laid out in a stream of byte order `e`. -/
def endianBytes32 (e : Endian) (v : Nat) : List Nat :=
  match e with
  | .little => [v % 256, v / 256 % 256, v / 65536 % 256, v / 16777216 % 256]
  | .big => [v / 16777216 % 256, v / 65536 % 256, v / 256 % 256, v % 256]

/-- Bytes of a 16-bit value as laid out in a stream of byte order `e`. -/
def endianBytes16 (e : Endian) (v : Nat) : List Nat :=
  match e with
  | .little => [v % 256, v / 256 % 256]
  | .big => [v / 256 % 256, v % 256]

/-- Value of four stream bytes decoded with byte order `e`. -/
def endianVal32 (e : Endian) (bs : List Nat) : Nat := natFromBytes32 e bs

/-- Value of two stream bytes decoded with byte order `e`. -/
def endianVal16 (e : Endian) (bs : List Nat) : Nat := natFromBytes16 e bs

/-- The naive little-endian serialization of a 64-bit value: eight bytes,
least significant first. -/
def le64Bytes (v : Nat) : List Nat :=
  [v % 256, v / 256 % 256, v / 65536 % 256, v / 16777216 % 256,
   v / 4294967296 % 256, v / 1099511627776 % 256,
   v / 281474976710656 % 256, v / 72057594037927936 % 256]

section StreamLemmas

/-- A write-mode stream at position `p` over buffer `B`. -/
def wstream (e : Endian) (B : Nat → Nat) (sz p : Nat) : stream_t :=
  { mode := .write, size := sz, pos := p, endianness := e, buf := B }

/-- Re-open a stream for reading at position `p` (same buffer). -/
def toRead (s : stream_t) (p : Nat) : stream_t := { s with mode := .read, pos := p }

theorem writeBytes_append (f : Nat → Nat) (p : Nat) (a b : List Nat) :
    writeBytes f p (a ++ b) = writeBytes (writeBytes f p a) (p + a.length) b := by
  induction a generalizing f p with
  | nil => simp [writeBytes]
  | cons x xs ih => simp [writeBytes, ih]; ring_nf

theorem writeBytes_eval_lt (f : Nat → Nat) (p : Nat) (bs : List Nat) (i : Nat) (h : i < p) :
    writeBytes f p bs i = f i := by
  induction bs generalizing f p with
  | nil => rfl
  | cons x xs ih =>
      simp only [writeBytes]
      rw [ih _ _ (by omega)]
      simp only [if_neg (show ¬ i = p by omega)]

theorem writeBytes_eval_ge (f : Nat → Nat) (p : Nat) (bs : List Nat) (i : Nat)
    (h : p + bs.length ≤ i) : writeBytes f p bs i = f i := by
  induction bs generalizing f p with
  | nil => rfl
  | cons x xs ih =>
      simp only [writeBytes, List.length_cons] at h ⊢
      rw [ih _ _ (by omega)]
      simp only [if_neg (show ¬ i = p by omega)]

theorem writeBytes_eval_in (f : Nat → Nat) (p : Nat) (bs : List Nat) (i : Nat)
    (h : i < bs.length) : writeBytes f p bs (p + i) = bs.getD i 0 % 256 := by
  induction bs generalizing f p i with
  | nil => simp at h
  | cons x xs ih =>
      match i with
      | 0 =>
          simp only [writeBytes]
          rw [writeBytes_eval_lt _ _ _ _ (by omega)]
          simp
      | Nat.succ j =>
          simp only [writeBytes, List.length_cons] at h ⊢
          simp only [List.getD_cons_succ]
          rw [show p + (j + 1) = p + 1 + j by omega]
          exact ih _ _ _ (by omega)

theorem readBytes_writeBytes (f : Nat → Nat) (p : Nat) (bs : List Nat) :
    readBytes (writeBytes f p bs) p bs.length = bs.map (· % 256) := by
  apply List.ext_getElem
  · simp [readBytes]
  · intro i h1 h2
    simp only [readBytes, List.length_map, List.length_range] at h1
    simp only [readBytes, List.getElem_map, List.getElem_range]
    rw [writeBytes_eval_in _ _ _ _ h1]
    rw [List.getD_eq_getElem?_getD, List.getElem?_eq_getElem (by simpa using h1)]
    simp

theorem readBytes_frame_left (f : Nat → Nat) (p : Nat) (bs : List Nat) (q n : Nat)
    (h : q + n ≤ p) : readBytes (writeBytes f p bs) q n = readBytes f q n := by
  unfold readBytes
  apply List.map_congr_left
  intro i hi
  simp only [List.mem_range] at hi
  rw [writeBytes_eval_lt _ _ _ _ (by omega)]

theorem readBytes_frame_right (f : Nat → Nat) (p : Nat) (bs : List Nat) (q n : Nat)
    (h : p + bs.length ≤ q) : readBytes (writeBytes f p bs) q n = readBytes f q n := by
  unfold readBytes
  apply List.map_congr_left
  intro i hi
  rw [writeBytes_eval_ge _ _ _ _ (by omega)]

theorem bswap16_eval (v : Nat) : HX_BYTESWAP16 v = v % 65536 / 256 + v % 256 * 256 := by
  unfold HX_BYTESWAP16; omega

theorem bswap32_eval (v : Nat) :
    HX_BYTESWAP32 v =
      v / 16777216 % 256 + v / 65536 % 256 * 256 + v / 256 % 256 * 65536 + v % 256 * 16777216 := by
  unfold HX_BYTESWAP32 HX_BYTESWAP16
  omega

theorem bswap16_lt (v : Nat) : HX_BYTESWAP16 v < 65536 := by
  rw [bswap16_eval]; omega

theorem bswap32_lt (v : Nat) : HX_BYTESWAP32 v < 4294967296 := by
  rw [bswap32_eval]; omega

theorem nat16_digits (v : Nat) : ∃ b0 b1, b0 < 256 ∧ b1 < 256 ∧
    v % 256 = b0 ∧ v / 256 % 256 = b1 ∧ v % 65536 / 256 = b1 ∧
    v % 65536 = b0 + b1 * 256 := by
  refine ⟨v % 256, v / 256 % 256, ?_⟩
  omega

theorem nat32_digits (v : Nat) : ∃ b0 b1 b2 b3, b0 < 256 ∧ b1 < 256 ∧ b2 < 256 ∧ b3 < 256 ∧
    v % 256 = b0 ∧ v / 256 % 256 = b1 ∧ v / 65536 % 256 = b2 ∧ v / 16777216 % 256 = b3 ∧
    v % 4294967296 = b0 + b1 * 256 + b2 * 65536 + b3 * 16777216 := by
  refine ⟨v % 256, v / 256 % 256, v / 65536 % 256, v / 16777216 % 256, ?_⟩
  omega

theorem digits16_unpack (a0 a1 : Nat) (h0 : a0 < 256) (h1 : a1 < 256) :
    (a0 + a1 * 256) % 256 = a0 ∧ (a0 + a1 * 256) / 256 % 256 = a1 ∧
    (a0 + a1 * 256) % 65536 / 256 = a1 ∧ (a0 + a1 * 256) % 65536 = a0 + a1 * 256 := by
  omega

theorem digits32_unpack (a0 a1 a2 a3 : Nat)
    (h0 : a0 < 256) (h1 : a1 < 256) (h2 : a2 < 256) (h3 : a3 < 256) :
    (a0 + a1 * 256 + a2 * 65536 + a3 * 16777216) % 256 = a0 ∧
    (a0 + a1 * 256 + a2 * 65536 + a3 * 16777216) / 256 % 256 = a1 ∧
    (a0 + a1 * 256 + a2 * 65536 + a3 * 16777216) / 65536 % 256 = a2 ∧
    (a0 + a1 * 256 + a2 * 65536 + a3 * 16777216) / 16777216 % 256 = a3 := by
  omega

theorem bswap16_bswap16 (v : Nat) : HX_BYTESWAP16 (HX_BYTESWAP16 v) = v % 65536 := by
  obtain ⟨b0, b1, hb0, hb1, e0, e1, e1', ev⟩ := nat16_digits v
  rw [bswap16_eval v, e0, e1']
  obtain ⟨u0, u1, u1', _⟩ := digits16_unpack b1 b0 hb1 hb0
  rw [bswap16_eval, u0, u1', ev]

theorem bswap32_bswap32 (v : Nat) : HX_BYTESWAP32 (HX_BYTESWAP32 v) = v % 4294967296 := by
  obtain ⟨b0, b1, b2, b3, hb0, hb1, hb2, hb3, e0, e1, e2, e3, ev⟩ := nat32_digits v
  rw [bswap32_eval v, e0, e1, e2, e3]
  obtain ⟨u0, u1, u2, u3⟩ := digits32_unpack b3 b2 b1 b0 hb3 hb2 hb1 hb0
  rw [bswap32_eval, u0, u1, u2, u3, ev]

theorem natBytes16_swap (v : Nat) :
    natBytes16 .little (HX_BYTESWAP16 v) = endianBytes16 .big v := by
  obtain ⟨b0, b1, hb0, hb1, e0, e1, e1', ev⟩ := nat16_digits v
  obtain ⟨u0, u1, u1', _⟩ := digits16_unpack b1 b0 hb1 hb0
  simp only [natBytes16, endianBytes16]
  rw [bswap16_eval v, e0, e1', u0, u1, e1]

theorem natBytes32_swap (v : Nat) :
    natBytes32 .little (HX_BYTESWAP32 v) = endianBytes32 .big v := by
  obtain ⟨b0, b1, b2, b3, hb0, hb1, hb2, hb3, e0, e1, e2, e3, ev⟩ := nat32_digits v
  obtain ⟨u0, u1, u2, u3⟩ := digits32_unpack b3 b2 b1 b0 hb3 hb2 hb1 hb0
  simp only [natBytes32, endianBytes32]
  rw [bswap32_eval v, e0, e1, e2, e3, u0, u1, u2, u3]

theorem natFrom_natBytes16 (w : Nat) :
    natFromBytes16 .little (natBytes16 .little w) = w % 65536 := by
  simp only [natFromBytes16, natBytes16, List.getD_cons_zero, List.getD_cons_succ]
  omega

theorem natFrom_natBytes32 (w : Nat) :
    natFromBytes32 .little (natBytes32 .little w) = w % 4294967296 := by
  simp only [natFromBytes32, natBytes32, List.getD_cons_zero, List.getD_cons_succ]
  omega

theorem doswap_false_of_little (sz p : Nat) (B : Nat → Nat) (m m' : Mode) :
    doswap ⟨m, sz, p, .little, B⟩ m' = false := by
  simp [doswap, HX_NATIVE_ENDIAN]

theorem doswap_big (sz p : Nat) (B : Nat → Nat) (m m' : Mode) :
    doswap ⟨m, sz, p, .big, B⟩ m' = decide (m = m') := by
  simp [doswap, HX_NATIVE_ENDIAN]

theorem stream_rw16_write (s : stream_t) (v : Nat) (hm : s.mode = .write) :
    stream_rw16 s v =
      ({ s with pos := s.pos + 2, buf := writeBytes s.buf s.pos (endianBytes16 s.endianness v) },
       v % 65536) := by
  obtain ⟨m, sz, p, e, B⟩ := s
  simp only at hm
  subst hm
  cases e
  case little =>
    simp only [stream_rw16, doswap_false_of_little, Bool.false_eq_true, if_false,
      Bool.or_self, stream_rw, stream_advance, HX_NATIVE_ENDIAN, natBytes16,
      natFromBytes16, endianBytes16, List.cons_append, List.nil_append,
      List.take_succ_cons, List.take_zero, List.getD_cons_zero, List.getD_cons_succ,
      Prod.mk.injEq, stream_t.mk.injEq, true_and, and_true]
    omega
  case big =>
    simp only [stream_rw16, doswap_big, HX_NATIVE_ENDIAN, stream_rw, stream_advance,
      Prod.mk.injEq, stream_t.mk.injEq, true_and, and_true]
    norm_num
    rw [natBytes16_swap]
    refine ⟨?_, ?_⟩
    · simp [endianBytes16]
    · rw [show endianBytes16 .big v = natBytes16 .little (HX_BYTESWAP16 v) from
        (natBytes16_swap v).symm]
      rw [natFrom_natBytes16, Nat.mod_eq_of_lt (bswap16_lt v), bswap16_bswap16]

theorem stream_rw32_write (s : stream_t) (v : Nat) (hm : s.mode = .write) :
    stream_rw32 s v =
      ({ s with pos := s.pos + 4, buf := writeBytes s.buf s.pos (endianBytes32 s.endianness v) },
       v % 4294967296) := by
  obtain ⟨m, sz, p, e, B⟩ := s
  simp only at hm
  subst hm
  cases e
  case little =>
    simp only [stream_rw32, doswap_false_of_little, Bool.false_eq_true, if_false,
      Bool.or_self, stream_rw, stream_advance, HX_NATIVE_ENDIAN, natBytes32,
      natFromBytes32, endianBytes32, List.cons_append, List.nil_append,
      List.take_succ_cons, List.take_zero, List.getD_cons_zero, List.getD_cons_succ,
      Prod.mk.injEq, stream_t.mk.injEq, true_and, and_true]
    omega
  case big =>
    simp only [stream_rw32, doswap_big, HX_NATIVE_ENDIAN, stream_rw, stream_advance,
      Prod.mk.injEq, stream_t.mk.injEq, true_and, and_true]
    norm_num
    rw [natBytes32_swap]
    refine ⟨?_, ?_⟩
    · simp [endianBytes32]
    · rw [show endianBytes32 .big v = natBytes32 .little (HX_BYTESWAP32 v) from
        (natBytes32_swap v).symm]
      rw [natFrom_natBytes32, Nat.mod_eq_of_lt (bswap32_lt v), bswap32_bswap32]

theorem readBytes_two (f : Nat → Nat) (p : Nat) :
    readBytes f p 2 = [f p % 256, f (p + 1) % 256] := by
  rw [readBytes, show List.range 2 = [0, 1] from rfl]
  simp

theorem readBytes_four (f : Nat → Nat) (p : Nat) :
    readBytes f p 4 =
      [f p % 256, f (p + 1) % 256, f (p + 2) % 256, f (p + 3) % 256] := by
  rw [readBytes, show List.range 4 = [0, 1, 2, 3] from rfl]
  simp

theorem mod256_mod256 (a : Nat) : a % 256 % 256 = a % 256 :=
  Nat.mod_mod_of_dvd a (dvd_refl 256)

theorem bswap16_bytes (a b : Nat) (ha : a < 256) (hb : b < 256) :
    HX_BYTESWAP16 (a + b * 256) = b + a * 256 := by
  obtain ⟨u0, u1, u1', _⟩ := digits16_unpack a b ha hb
  rw [bswap16_eval, u0, u1']

theorem bswap32_bytes (a b c d : Nat)
    (ha : a < 256) (hb : b < 256) (hc : c < 256) (hd : d < 256) :
    HX_BYTESWAP32 (a + b * 256 + c * 65536 + d * 16777216) =
      d + c * 256 + b * 65536 + a * 16777216 := by
  obtain ⟨u0, u1, u2, u3⟩ := digits32_unpack a b c d ha hb hc hd
  rw [bswap32_eval, u0, u1, u2, u3]

theorem stream_rw16_read (s : stream_t) (v : Nat) (hm : s.mode = .read) :
    stream_rw16 s v =
      (stream_advance s 2, endianVal16 s.endianness (readBytes s.buf s.pos 2)) := by
  obtain ⟨m, sz, p, e, B⟩ := s
  simp only at hm
  subst hm
  cases e
  case little =>
    simp only [stream_rw16, doswap_false_of_little, Bool.false_eq_true, if_false,
      Bool.or_self, stream_rw, stream_advance, HX_NATIVE_ENDIAN, readBytes_two,
      endianVal16, natFromBytes16, List.cons_append, List.getD_cons_zero,
      List.getD_cons_succ, Prod.mk.injEq, true_and, mod256_mod256]
  case big =>
    simp only [stream_rw16, doswap_big, HX_NATIVE_ENDIAN, stream_rw, stream_advance,
      readBytes_two, endianVal16, natFromBytes16, List.cons_append, List.getD_cons_zero,
      List.getD_cons_succ, Prod.mk.injEq, true_and, mod256_mod256]
    norm_num
    rw [bswap16_bytes _ _ (Nat.mod_lt _ (by norm_num)) (Nat.mod_lt _ (by norm_num))]
    omega

theorem stream_rw32_read (s : stream_t) (v : Nat) (hm : s.mode = .read) :
    stream_rw32 s v =
      (stream_advance s 4, endianVal32 s.endianness (readBytes s.buf s.pos 4)) := by
  obtain ⟨m, sz, p, e, B⟩ := s
  simp only at hm
  subst hm
  cases e
  case little =>
    simp only [stream_rw32, doswap_false_of_little, Bool.false_eq_true, if_false,
      Bool.or_self, stream_rw, stream_advance, HX_NATIVE_ENDIAN, readBytes_four,
      endianVal32, natFromBytes32, List.cons_append, List.getD_cons_zero,
      List.getD_cons_succ, Prod.mk.injEq, true_and, mod256_mod256]
  case big =>
    simp only [stream_rw32, doswap_big, HX_NATIVE_ENDIAN, stream_rw, stream_advance,
      readBytes_four, endianVal32, natFromBytes32, List.cons_append, List.getD_cons_zero,
      List.getD_cons_succ, Prod.mk.injEq, true_and, mod256_mod256]
    norm_num
    rw [bswap32_bytes _ _ _ _ (Nat.mod_lt _ (by norm_num)) (Nat.mod_lt _ (by norm_num))
      (Nat.mod_lt _ (by norm_num)) (Nat.mod_lt _ (by norm_num))]
    omega

theorem endianBytes16_length (e : Endian) (v : Nat) : (endianBytes16 e v).length = 2 := by
  cases e <;> rfl

theorem endianBytes32_length (e : Endian) (v : Nat) : (endianBytes32 e v).length = 4 := by
  cases e <;> rfl

theorem endianBytes16_map_mod (e : Endian) (v : Nat) :
    (endianBytes16 e v).map (· % 256) = endianBytes16 e v := by
  cases e <;> simp [endianBytes16, mod256_mod256]

theorem endianBytes32_map_mod (e : Endian) (v : Nat) :
    (endianBytes32 e v).map (· % 256) = endianBytes32 e v := by
  cases e <;> simp [endianBytes32, mod256_mod256]

theorem endianVal16_endianBytes16 (e : Endian) (v : Nat) :
    endianVal16 e (endianBytes16 e v) = v % 65536 := by
  cases e <;> simp [endianVal16, endianBytes16, natFromBytes16, mod256_mod256] <;> omega

theorem endianVal32_endianBytes32 (e : Endian) (v : Nat) :
    endianVal32 e (endianBytes32 e v) = v % 4294967296 := by
  cases e <;> simp [endianVal32, endianBytes32, natFromBytes32, mod256_mod256] <;> omega

theorem readBytes_of_write16 (e : Endian) (B : Nat → Nat) (p v : Nat) :
    readBytes (writeBytes B p (endianBytes16 e v)) p 2 = endianBytes16 e v := by
  have h := readBytes_writeBytes B p (endianBytes16 e v)
  rw [endianBytes16_length, endianBytes16_map_mod] at h
  exact h

theorem readBytes_of_write32 (e : Endian) (B : Nat → Nat) (p v : Nat) :
    readBytes (writeBytes B p (endianBytes32 e v)) p 4 = endianBytes32 e v := by
  have h := readBytes_writeBytes B p (endianBytes32 e v)
  rw [endianBytes32_length, endianBytes32_map_mod] at h
  exact h

end StreamLemmas

/-- **C5.** For every primitive field type in {8-bit, 16-bit, 32-bit
integer, float}, every stream endianness, and every value `v` of the
type's width, writing `v` with the stream's `rw` routine in write mode
and then reading it back with the same routine in read mode from the same
position yields `v` again; moreover the caller's variable holds the
native-endian value `v` after the call in both modes (in write mode the
byte swap happens before the copy into the buffer and is undone on the
caller's variable afterwards, in read mode it happens after the copy). -/
theorem stream_primitive_inverse (e : Endian) (B : Nat → Nat) (sz p : Nat)
    (v8 v16 v32 vf j : Nat)
    (h8 : v8 < 256) (h16 : v16 < 65536) (h32 : v32 < 4294967296) (hf : vf < 4294967296) :
    ((stream_rw8 (wstream e B sz p) v8).2 = v8 ∧
      (stream_rw8 (toRead (stream_rw8 (wstream e B sz p) v8).1 p) j).2 = v8) ∧
    ((stream_rw16 (wstream e B sz p) v16).2 = v16 ∧
      (stream_rw16 (toRead (stream_rw16 (wstream e B sz p) v16).1 p) j).2 = v16) ∧
    ((stream_rw32 (wstream e B sz p) v32).2 = v32 ∧
      (stream_rw32 (toRead (stream_rw32 (wstream e B sz p) v32).1 p) j).2 = v32) ∧
    ((stream_rwfloat (wstream e B sz p) vf).2 = vf ∧
      (stream_rwfloat (toRead (stream_rwfloat (wstream e B sz p) vf).1 p) j).2 = vf) := by
  have hb16 : ∀ w : Nat, w < 65536 →
      (stream_rw16 (wstream e B sz p) w).2 = w ∧
        (stream_rw16 (toRead (stream_rw16 (wstream e B sz p) w).1 p) j).2 = w := by
    intro w hw
    have hw' := stream_rw16_write (wstream e B sz p) w rfl
    rw [hw']
    constructor
    · exact Nat.mod_eq_of_lt hw
    · rw [stream_rw16_read _ j rfl]
      simp only [toRead, wstream]
      rw [readBytes_of_write16, endianVal16_endianBytes16]
      exact Nat.mod_eq_of_lt hw
  have hb32 : ∀ w : Nat, w < 4294967296 →
      (stream_rw32 (wstream e B sz p) w).2 = w ∧
        (stream_rw32 (toRead (stream_rw32 (wstream e B sz p) w).1 p) j).2 = w := by
    intro w hw
    have hw' := stream_rw32_write (wstream e B sz p) w rfl
    rw [hw']
    constructor
    · exact Nat.mod_eq_of_lt hw
    · rw [stream_rw32_read _ j rfl]
      simp only [toRead, wstream]
      rw [readBytes_of_write32, endianVal32_endianBytes32]
      exact Nat.mod_eq_of_lt hw
  refine ⟨⟨?_, ?_⟩, hb16 v16 h16, hb32 v32 h32, hb32 vf hf⟩
  · simp [stream_rw8, stream_rw, wstream, stream_advance]
    omega
  · have hv := writeBytes_eval_in B p [v8 % 256] 0 (by simp)
    simp only [Nat.add_zero, List.getD_cons_zero] at hv
    simp [stream_rw8, stream_rw, wstream, stream_advance, toRead, readBytes,
      show List.range 1 = [0] from rfl, hv]
    omega

/-- Witness for C5 at concrete inputs. -/
theorem stream_primitive_inverse_witness :
    ((stream_rw8 (wstream .big (fun _ => 0) 16 0) 7).2 = 7 ∧
      (stream_rw8 (toRead (stream_rw8 (wstream .big (fun _ => 0) 16 0) 7).1 0) 0).2 = 7) ∧
    ((stream_rw16 (wstream .big (fun _ => 0) 16 0) 300).2 = 300 ∧
      (stream_rw16 (toRead (stream_rw16 (wstream .big (fun _ => 0) 16 0) 300).1 0) 0).2 = 300) ∧
    ((stream_rw32 (wstream .big (fun _ => 0) 16 0) 70000).2 = 70000 ∧
      (stream_rw32 (toRead (stream_rw32 (wstream .big (fun _ => 0) 16 0) 70000).1 0) 0).2 = 70000) ∧
    ((stream_rwfloat (wstream .big (fun _ => 0) 16 0) 5).2 = 5 ∧
      (stream_rwfloat (toRead (stream_rwfloat (wstream .big (fun _ => 0) 16 0) 5).1 0) 0).2 = 5) :=
  stream_primitive_inverse .big (fun _ => 0) 16 0 7 300 70000 5 0
    (by norm_num) (by norm_num) (by norm_num) (by norm_num)

/-- **C6, counterexample.**  On a big-endian stream, `stream_rwcuuid`
serializes a CUUID whose 32-bit halves differ to exactly its naive
little-endian 64-bit serialization: the two are not distinguishable, so
the claim's distinguishability consequence fails for big-endian streams
at this input. -/
theorem rwcuuid_bigendian_collision :
    (0x1234567878563412 : Nat) / 4294967296 ≠ (0x1234567878563412 : Nat) % 4294967296 ∧
    readBytes ((stream_rwcuuid (wstream .big (fun _ => 0) 16 0) 0x1234567878563412).1.buf) 0 8 =
      le64Bytes 0x1234567878563412 := by
  constructor
  · decide
  · decide

/-- **C6** (amended).  For every 64-bit CUUID and every stream endianness,
`stream_rwcuuid` serializes the high 32 bits first and then the low
32 bits, each half in the stream's endianness, and the caller's variable
is unchanged; consequently on a *little-endian* stream a CUUID whose
halves differ is serialized differently from its naive little-endian
64-bit serialization (on a big-endian stream the output coincides with
the naive big-endian serialization, which can collide with the naive
little-endian one). -/
theorem rwcuuid_halfswap (e : Endian) (B : Nat → Nat) (sz p : Nat) (v : Nat)
    (hv : v < 18446744073709551616) :
    readBytes ((stream_rwcuuid (wstream e B sz p) v).1.buf) p 8 =
      endianBytes32 e (v / 4294967296) ++ endianBytes32 e (v % 4294967296) ∧
    (stream_rwcuuid (wstream e B sz p) v).2 = v ∧
    (e = .little → v / 4294967296 ≠ v % 4294967296 →
      readBytes ((stream_rwcuuid (wstream e B sz p) v).1.buf) p 8 ≠ le64Bytes v) := by
  have hhi : v / 4294967296 % 4294967296 = v / 4294967296 :=
    Nat.mod_eq_of_lt (by omega)
  have h1 := stream_rw32_write (wstream e B sz p) (v / 4294967296 % 4294967296) rfl
  have hbuf1 :
      (stream_rw32 (wstream e B sz p) (v / 4294967296 % 4294967296)).1 =
        wstream e (writeBytes B p (endianBytes32 e (v / 4294967296))) sz (p + 4) := by
    rw [h1, hhi]; rfl
  have h2 := stream_rw32_write
    (wstream e (writeBytes B p (endianBytes32 e (v / 4294967296))) sz (p + 4))
    (v % 4294967296) rfl
  have hmain : (stream_rwcuuid (wstream e B sz p) v).1.buf =
      writeBytes B p
        (endianBytes32 e (v / 4294967296) ++ endianBytes32 e (v % 4294967296)) := by
    rw [writeBytes_append, endianBytes32_length]
    show ((stream_rw32 ((stream_rw32 (wstream e B sz p) (v / 4294967296 % 4294967296)).1)
      (v % 4294967296)).1).buf = _
    rw [hbuf1, h2]
    rfl
  have hval : (stream_rwcuuid (wstream e B sz p) v).2 = v := by
    show (stream_rw32 ((stream_rw32 (wstream e B sz p) (v / 4294967296 % 4294967296)).1)
        (v % 4294967296)).2 +
      (stream_rw32 (wstream e B sz p) (v / 4294967296 % 4294967296)).2 * 4294967296 = v
    rw [hbuf1, h2, h1]
    simp only []
    omega
  have hbytes : readBytes ((stream_rwcuuid (wstream e B sz p) v).1.buf) p 8 =
      endianBytes32 e (v / 4294967296) ++ endianBytes32 e (v % 4294967296) := by
    rw [hmain]
    have h := readBytes_writeBytes B p
      (endianBytes32 e (v / 4294967296) ++ endianBytes32 e (v % 4294967296))
    rw [List.length_append, endianBytes32_length, endianBytes32_length] at h
    rw [show (8 : Nat) = 4 + 4 from rfl, h, List.map_append, endianBytes32_map_mod,
      endianBytes32_map_mod]
  refine ⟨hbytes, hval, ?_⟩
  intro he hne
  subst he
  rw [hbytes]
  intro hcontra
  simp only [endianBytes32, le64Bytes, List.cons_append, List.nil_append,
    List.cons.injEq, and_true] at hcontra
  obtain ⟨e1, e2, e3, e4, e5, e6, e7, e8⟩ := hcontra
  have d1 : v / 4294967296 / 256 = v / 1099511627776 := by
    rw [Nat.div_div_eq_div_mul]
  have d2 : v / 4294967296 / 65536 = v / 281474976710656 := by
    rw [Nat.div_div_eq_div_mul]
  have d3 : v / 4294967296 / 16777216 = v / 72057594037927936 := by
    rw [Nat.div_div_eq_div_mul]
  rw [← d1] at e6
  rw [← d2] at e7
  rw [← d3] at e8
  have hhisum : v / 4294967296 =
      v / 4294967296 % 256 + v / 4294967296 / 256 % 256 * 256 +
        v / 4294967296 / 65536 % 256 * 65536 +
        v / 4294967296 / 16777216 % 256 * 16777216 := by
    obtain ⟨b0, b1, b2, b3, hb0, hb1, hb2, hb3, f0, f1, f2, f3, fv⟩ :=
      nat32_digits (v / 4294967296)
    omega
  have hlosum : v % 4294967296 =
      v % 4294967296 % 256 + v % 4294967296 / 256 % 256 * 256 +
        v % 4294967296 / 65536 % 256 * 65536 +
        v % 4294967296 / 16777216 % 256 * 16777216 := by
    obtain ⟨b0, b1, b2, b3, hb0, hb1, hb2, hb3, f0, f1, f2, f3, fv⟩ :=
      nat32_digits (v % 4294967296)
    omega
  exact hne (by omega)

/-! ## Audio formats and conversion dispatch (`hx2.h`, `hx2.c`) -/

/-- `enum HX_AudioFormat` (hx2.h): PCM=1, UBI=2, PSX=3, DSP=4, IMA=5, MP3=0x55. -/
inductive HX_AudioFormat where
  | pcm
  | ubi
  | psx
  | dsp
  | ima
  | mp3
deriving DecidableEq, Repr, Fintype

/-- The action selected by `hx_audio_convert` (hx2.c): PCM→PCM copies the
input stream to the output, DSP→PCM calls `dsp_decode`, PSX→PCM calls
`psx_decode`, PCM→DSP calls `dsp_encode`, anything else returns -1. -/
inductive ConvertAction where
  | copyStream
  | dspDecode
  | psxDecode
  | dspEncode
  | unsupported
deriving DecidableEq, Repr, Fintype

/-- `hx_audio_convert` (hx2.c): the dispatch on the input format
`i_stream->info.fmt` and requested output format `o_stream->info.fmt`,
translated clause for clause from the if-chain. -/
def hx_audio_convert (got_fmt wanted_fmt : HX_AudioFormat) : ConvertAction :=
  if got_fmt = .pcm ∧ wanted_fmt = .pcm then .copyStream
  else if got_fmt = .dsp ∧ wanted_fmt = .pcm then .dspDecode
  else if got_fmt = .psx ∧ wanted_fmt = .pcm then .psxDecode
  else if got_fmt = .pcm ∧ wanted_fmt = .dsp then .dspEncode
  else .unsupported

/-- **C8.** For every pair of audio formats, the conversion copies on
PCM→PCM, invokes the DSP decoder on DSP→PCM, the PSX decoder on PSX→PCM,
the DSP encoder on PCM→DSP, and fails with the unsupported-format result
for every other pair. -/
theorem hx_audio_convert_dispatch :
    ∀ got wanted : HX_AudioFormat,
      (hx_audio_convert got wanted = .copyStream ↔ got = .pcm ∧ wanted = .pcm) ∧
      (hx_audio_convert got wanted = .dspDecode ↔ got = .dsp ∧ wanted = .pcm) ∧
      (hx_audio_convert got wanted = .psxDecode ↔ got = .psx ∧ wanted = .pcm) ∧
      (hx_audio_convert got wanted = .dspEncode ↔ got = .pcm ∧ wanted = .dsp) ∧
      (hx_audio_convert got wanted = .unsupported ↔
        ¬((got = .pcm ∧ wanted = .pcm) ∨ (got = .dsp ∧ wanted = .pcm) ∨
          (got = .psx ∧ wanted = .pcm) ∨ (got = .pcm ∧ wanted = .dsp))) := by
  decide

/-! ## DSP-ADPCM sizing (`codec.c`) -/

/-- `dsp_pcm_size` (codec.c): size in bytes of the decoded stream for a
given sample count — the frame count is `sample_count / 14` rounded up,
times 14 samples, times `sizeof(short)`.  Note the function does *not*
multiply by the channel count. -/
def dsp_pcm_size (sample_count : Nat) : Nat :=
  let frames := sample_count / 14
  let frames := if sample_count % 14 ≠ 0 then frames + 1 else frames
  frames * 14 * 2

/-- The output buffer size allocated by `dsp_decode` (codec.c) when each
of the `channels` per-channel headers declares `n` samples:
`total_samples` is the sum of the per-channel counts, and
`out->size = dsp_pcm_size(total_samples)`. -/
def dsp_decode_out_size (n channels : Nat) : Nat := dsp_pcm_size (channels * n)

/-- Modelled from the spec: the claimed decoded size
`ceil(n / 14) * 14 * channels * 2` for per-channel sample count `n`. -/
def dsp_spec_size (n channels : Nat) : Nat := (n + 13) / 14 * 14 * channels * 2

/-- **C2, counterexample.**  For per-channel sample count 7 and 2
channels, `dsp_decode` allocates `dsp_pcm_size(14) = 28` bytes while the
claimed formula gives 56 bytes. -/
theorem dsp_decode_size_counterexample :
    dsp_decode_out_size 7 2 = 28 ∧ dsp_spec_size 7 2 = 56 ∧
      dsp_decode_out_size 7 2 ≠ dsp_spec_size 7 2 := by
  decide

/-- **C2** (amended).  The output buffer size computed by `dsp_decode`
equals `ceil((n·channels) / 14) * 14 * 2` bytes — the frame rounding is
applied to the *summed* sample count and the channel count is not a
factor; for mono streams (`channels = 1`) this agrees with the claimed
`ceil(n / 14) * 14 * channels * 2`. -/
theorem dsp_decode_out_size_eq (n channels : Nat) :
    dsp_decode_out_size n channels = (channels * n + 13) / 14 * 14 * 2 ∧
    (channels = 1 → dsp_decode_out_size n channels = dsp_spec_size n channels) := by
  constructor
  · simp only [dsp_decode_out_size, dsp_pcm_size]
    split <;> omega
  · intro h
    subst h
    simp only [dsp_decode_out_size, dsp_pcm_size, dsp_spec_size]
    split <;> omega

/-- Witness for the amended C2 at a concrete input. -/
theorem dsp_decode_out_size_eq_witness :
    dsp_decode_out_size 7 1 = (1 * 7 + 13) / 14 * 14 * 2 ∧
    (1 = 1 → dsp_decode_out_size 7 1 = dsp_spec_size 7 1) :=
  dsp_decode_out_size_eq 7 1

/-! ## Class names (`hx2.c`) -/

/-- `enum HX_Class` (hx2.h). -/
inductive HX_Class where
  | eventResData
  | wavResData
  | switchResData
  | randomResData
  | programResData
  | waveFileIdObj
  | invalid
deriving DecidableEq, Repr, Fintype

/-- `enum HX_Version` (hx2.h). -/
inductive HX_Version where
  | hxd
  | hxc
  | hx2
  | hxg
  | hxx
  | hx3
  | invalid
deriving DecidableEq, Repr, Fintype

/-- `hx_version_table[v].platform` (hx2.c). -/
def hx_version_platform : HX_Version → List Char
  | .hxd => "PC".toList
  | .hxc => "PC".toList
  | .hx2 => "PS2".toList
  | .hxg => "GC".toList
  | .hxx => "XBox".toList
  | .hx3 => "PS3".toList
  | .invalid => []

/-- `hx_version_table[v].endianness` (hx2.c). -/
def hx_version_endianness : HX_Version → Endian
  | .hxd => .big
  | .hxc => .little
  | .hx2 => .little
  | .hxg => .big
  | .hxx => .big
  | .hx3 => .little
  | .invalid => .little

/-- `hx_class_table[c].crossversion` (hx2.c). -/
def hx_class_crossversion : HX_Class → Bool
  | .eventResData => true
  | .wavResData => false
  | .switchResData => true
  | .randomResData => true
  | .programResData => true
  | .waveFileIdObj => false
  | .invalid => true

/-- `hx_class_table[c].name` (hx2.c). -/
def hx_class_fragment : HX_Class → List Char
  | .eventResData => "EventResData".toList
  | .wavResData => "WavResData".toList
  | .switchResData => "SwitchResData".toList
  | .randomResData => "RandomResData".toList
  | .programResData => "ProgramResData".toList
  | .waveFileIdObj => "WaveFileIdObj".toList
  | .invalid => []

/-- `hx_class_name` (hx2.c):
`snprintf(buf, sz, "C%s%s", crossversion ? "" : platform, name)` —
the leading `'C'`, the platform tag when the class is not cross-version,
then the class fragment (all names fit the 256-byte buffer, so the
`snprintf` bound never truncates). -/
def hx_class_name (c : HX_Class) (v : HX_Version) : List Char :=
  'C' :: ((if hx_class_crossversion c then [] else hx_version_platform v) ++
    hx_class_fragment c)

/-- `hx_class_from_string` (hx2.c): requires a leading `'C'`, strips each
matching platform tag in turn (PC, GC, PS2, PS3, XBox), then dispatches
on the remaining suffix by `strncmp` prefix tests. -/
def hx_class_from_string (name : List Char) : HX_Class :=
  match name with
  | [] => .invalid
  | c0 :: rest =>
      if c0 ≠ 'C' then .invalid
      else
        let n1 := if "PC".toList.isPrefixOf rest then rest.drop 2 else rest
        let n2 := if "GC".toList.isPrefixOf n1 then n1.drop 2 else n1
        let n3 := if "PS2".toList.isPrefixOf n2 then n2.drop 3 else n2
        let n4 := if "PS3".toList.isPrefixOf n3 then n3.drop 3 else n3
        let n5 := if "XBox".toList.isPrefixOf n4 then n4.drop 4 else n4
        if "EventResData".toList.isPrefixOf n5 then .eventResData
        else if "WavResData".toList.isPrefixOf n5 then .wavResData
        else if "SwitchResData".toList.isPrefixOf n5 then .switchResData
        else if "RandomResData".toList.isPrefixOf n5 then .randomResData
        else if "ProgramResData".toList.isPrefixOf n5 then .programResData
        else if "WaveFileIdObj".toList.isPrefixOf n5 then .waveFileIdObj
        else .invalid

/-- **C9.** For every real class and every real variant, the serialized
class name is `"C"`, then the variant's platform tag exactly when the
class is not cross-version, then the class fragment; and parsing that
name returns the same class again. -/
theorem hx_class_name_roundtrip :
    ∀ c : HX_Class, ∀ v : HX_Version, c ≠ .invalid → v ≠ .invalid →
      hx_class_name c v =
        'C' :: ((if hx_class_crossversion c then [] else hx_version_platform v) ++
          hx_class_fragment c) ∧
      hx_class_from_string (hx_class_name c v) = c := by
  decide

/-- Witness for C9 at a concrete class and variant. -/
theorem hx_class_name_roundtrip_witness :
    hx_class_name .wavResData .hx2 =
      'C' :: ((if hx_class_crossversion .wavResData then [] else hx_version_platform .hx2) ++
        hx_class_fragment .wavResData) ∧
    hx_class_from_string (hx_class_name .wavResData .hx2) = .wavResData :=
  hx_class_name_roundtrip .wavResData .hx2 (by decide) (by decide)

/-- Witness for the amended C6 at a concrete input. -/
theorem rwcuuid_halfswap_witness :
    readBytes ((stream_rwcuuid (wstream .little (fun _ => 0) 16 0) 0x0000000100000002).1.buf) 0 8 =
      endianBytes32 .little ((0x0000000100000002 : Nat) / 4294967296) ++
        endianBytes32 .little ((0x0000000100000002 : Nat) % 4294967296) ∧
    (stream_rwcuuid (wstream .little (fun _ => 0) 16 0) 0x0000000100000002).2 =
      0x0000000100000002 ∧
    (Endian.little = Endian.little →
      (0x0000000100000002 : Nat) / 4294967296 ≠ (0x0000000100000002 : Nat) % 4294967296 →
      readBytes ((stream_rwcuuid (wstream .little (fun _ => 0) 16 0) 0x0000000100000002).1.buf) 0 8 ≠
        le64Bytes 0x0000000100000002) :=
  rwcuuid_halfswap .little (fun _ => 0) 16 0 0x0000000100000002 (by norm_num)

/-! ## PSX-ADPCM decoder (`codec.c`)

All `psx_adpcm_coefficients` entries are integer multiples of 1/256 and
every intermediate of the C `double` computation (`coefficient * history`
with `|history| ≤ 32768`) is exactly representable, so the floating-point
arithmetic is modelled exactly by integers scaled by 256. -/

/-- `psx_adpcm_coefficients` (codec.c): the 16 (α, β) rows, scaled by 256
to integers (e.g. row 2 is (1.796875, -0.8125) = (460/256, -208/256)). -/
def psx_adpcm_coefficients (i : Nat) : Int × Int :=
  match i with
  | 0 => (0, 0)
  | 1 => (240, 0)
  | 2 => (460, -208)
  | 3 => (392, -220)
  | 4 => (488, -240)
  | 5 => (120, 0)
  | 6 => (230, -104)
  | 7 => (196, -110)
  | 8 => (244, -120)
  | 9 => (60, 0)
  | 10 => (115, -52)
  | 11 => (98, -55)
  | 12 => (122, -60)
  | 13 => (128, -240)
  | 14 => (60, -240)
  | 15 => (28, -240)
  | _ => (0, 0)

/-- `psx_sample_count` (codec.c). -/
def psx_sample_count (sz ch : Nat) : Nat := sz / ch / 16 * 28

/-- `psx_pcm_size` (codec.c): like `dsp_pcm_size` but with 28-sample
frames. -/
def psx_pcm_size (sample_count : Nat) : Nat :=
  let frames := sample_count / 28
  let frames := if sample_count % 28 ≠ 0 then frames + 1 else frames
  frames * 28 * 2

/-- One output sample of `psx_decode` (codec.c):
`output = (sample >> shift) + hst1 * α + hst2 * β`, saturated to
`[SHRT_MIN, SHRT_MAX]` and truncated to a short.  `x` is `sample >> shift`
(arithmetic shift), the α/β products are carried at scale 256, and the
final `(short)` cast truncates the exact double toward zero. -/
def psx_clamp_short (x256 : Int) : Int :=
  Int.tdiv (max (min x256 (32767 * 256)) (-32768 * 256)) 256

/-- The 28-sample inner loop of `psx_decode` over the expanded nibbles of
one frame, threading the history pair `(hst1, hst2)`. -/
def psx_samples (shift : Nat) (coef : Int × Int) :
    List Nat → Int × Int → List Int × (Int × Int)
  | [], h => ([], h)
  | nib :: rest, (h1, h2) =>
      let sample : Int := if nib ≥ 8 then (nib : Int) * 4096 - 65536 else (nib : Int) * 4096
      let out := psx_clamp_short (Int.fdiv sample (2 ^ shift) * 256 + h1 * coef.1 + h2 * coef.2)
      let r := psx_samples shift coef rest (out, h1)
      (out :: r.1, r.2)

/-- One 16-byte frame of `psx_decode` (codec.c), at frame index `k` of the
input (frames are consumed sequentially, 16 bytes per channel per frame
row): the predictor is the high nibble of the first byte and the shift
its low nibble; the second byte is the unused flags byte; the remaining
14 bytes expand to 28 nibbles, low nibble of each byte first.  A
predictor greater than 4 fails immediately (`return -1`). -/
def psx_decode_frame (data : List Nat) (k : Nat) (h : Int × Int) :
    Option (List Int × (Int × Int)) :=
  let ps := data.getD (16 * k) 0
  let predict := ps / 16 % 16
  let shift := ps % 16
  if predict > 4 then none
  else
    let nibbles := (List.range 14).flatMap fun y =>
      [data.getD (16 * k + 2 + y) 0 % 16, data.getD (16 * k + 2 + y) 0 / 16 % 16]
    some (psx_samples shift (psx_adpcm_coefficients predict) nibbles h)

/-- One frame row of `psx_decode`: the per-channel inner loop, channel
`c` onward, with the per-channel history list `hs`. -/
def psx_row (data : List Nat) (base : Nat) :
    List (Int × Int) → Nat → Option (List (List Int) × List (Int × Int))
  | [], _ => some ([], [])
  | h :: hs, c =>
      match psx_decode_frame data (base + c) h with
      | none => none
      | some (samples, h') =>
          match psx_row data base hs (c + 1) with
          | none => none
          | some (rows, hs') => some (samples :: rows, h' :: hs')

/-- The frame loop of `psx_decode`: `n` frame rows starting at row `i`. -/
def psx_rows (data : List Nat) (ch : Nat) :
    Nat → Nat → List (Int × Int) → Option (List (List Int))
  | 0, _, _ => some []
  | n + 1, i, hs =>
      match psx_row data (i * ch) hs 0 with
      | none => none
      | some (rows, hs') =>
          match psx_rows data ch n (i + 1) hs' with
          | none => none
          | some rest => some (rows ++ rest)

/-- `psx_decode` (codec.c): per-channel histories start at zero (the
`memset` intends to clear them; fresh memory is modelled as zero), the
frame count is the total sample count rounded up to 28-sample frames, and
the result is the per-(frame, channel) sample lists in processing order
(`none` models the `return -1` on a malformed frame). -/
def psx_decode (ch : Nat) (data : List Nat) : Option (List (List Int)) :=
  let total := psx_sample_count data.length ch
  let num_frames := (total + 27) / 28
  psx_rows data ch num_frames 0 (List.replicate ch (0, 0))

theorem psx_row_length (data : List Nat) (base : Nat) (hs : List (Int × Int)) (c : Nat)
    (rows : List (List Int)) (hs' : List (Int × Int))
    (h : psx_row data base hs c = some (rows, hs')) : hs'.length = hs.length := by
  induction hs generalizing c rows hs' with
  | nil => simp [psx_row] at h; simp [h.2.symm]
  | cons x xs ih =>
      simp only [psx_row] at h
      cases hf : psx_decode_frame data (base + c) x with
      | none => rw [hf] at h; simp at h
      | some v =>
          rw [hf] at h
          cases hr : psx_row data base xs (c + 1) with
          | none => rw [hr] at h; simp at h
          | some w =>
              rw [hr] at h
              simp only [Option.some.injEq, Prod.mk.injEq] at h
              obtain ⟨h1, h2⟩ := h
              subst h2
              simp [List.length_cons, ih (c + 1) w.1 w.2 hr]

theorem psx_row_isSome (data : List Nat) (base : Nat) (hs : List (Int × Int)) (c : Nat) :
    (psx_row data base hs c).isSome ↔
      ∀ j < hs.length, data.getD (16 * (base + c + j)) 0 / 16 % 16 ≤ 4 := by
  induction hs generalizing c with
  | nil => simp [psx_row]
  | cons x xs ih =>
      simp only [psx_row]
      cases hf : psx_decode_frame data (base + c) x with
      | none =>
          simp only [Option.isSome_none, Bool.false_eq_true, false_iff]
          intro hall
          have h0 := hall 0 (by simp)
          simp only [Nat.add_zero] at h0
          simp only [psx_decode_frame] at hf
          rw [if_neg (by omega)] at hf
          exact Option.noConfusion hf
      | some v =>
          have hpred : data.getD (16 * (base + c)) 0 / 16 % 16 ≤ 4 := by
            simp only [psx_decode_frame] at hf
            by_contra hgt
            rw [if_pos (by omega)] at hf
            exact Option.noConfusion hf
          cases hr : psx_row data base xs (c + 1) with
          | none =>
              simp only [Option.isSome_none, Bool.false_eq_true, false_iff]
              intro hall
              rw [← Option.not_isSome_iff_eq_none] at hr
              apply hr
              rw [ih (c + 1)]
              intro j hj
              have hthis := hall (j + 1) (by simpa using Nat.succ_lt_succ hj)
              have heq : base + (c + 1) + j = base + c + (j + 1) := by omega
              rw [heq]
              exact hthis
          | some w =>
              simp only [Option.isSome_some, true_iff]
              intro j hj
              match j with
              | 0 => simpa using hpred
              | Nat.succ j' =>
                  have hx : (psx_row data base xs (c + 1)).isSome := by rw [hr]; rfl
                  rw [ih (c + 1)] at hx
                  have hthis := hx j' (by simpa using Nat.lt_of_succ_lt_succ hj)
                  have heq : base + c + (j' + 1) = base + (c + 1) + j' := by omega
                  rw [heq]
                  exact hthis

theorem psx_rows_isSome (data : List Nat) (ch : Nat) (n : Nat) (i : Nat)
    (hs : List (Int × Int)) (hlen : hs.length = ch) :
    (psx_rows data ch n i hs).isSome ↔
      ∀ m < n, ∀ j < ch, data.getD (16 * ((i + m) * ch + j)) 0 / 16 % 16 ≤ 4 := by
  induction n generalizing i hs with
  | zero => simp [psx_rows]
  | succ n ih =>
      simp only [psx_rows]
      cases hr : psx_row data (i * ch) hs 0 with
      | none =>
          simp only [Option.isSome_none, Bool.false_eq_true, false_iff]
          intro hall
          rw [← Option.not_isSome_iff_eq_none] at hr
          apply hr
          rw [psx_row_isSome]
          intro j hj
          have := hall 0 (Nat.succ_pos n) j (by omega)
          simpa using this
      | some w =>
          have hw : w.2.length = ch := by
            have hl := psx_row_length data (i * ch) hs 0 w.1 w.2 (by rw [hr])
            exact hl.trans hlen
          have hred : (match some w with
              | none => (none : Option (List (List Int)))
              | some (rows, hs') =>
                match psx_rows data ch n (i + 1) hs' with
                | none => none
                | some rest => some (rows ++ rest)) =
              (match psx_rows data ch n (i + 1) w.2 with
                | none => none
                | some rest => some (w.1 ++ rest)) := by
            obtain ⟨rows, hs'⟩ := w
            rfl
          rw [hred]
          have hrow : (psx_row data (i * ch) hs 0).isSome := by rw [hr]; rfl
          rw [psx_row_isSome] at hrow
          constructor
          · intro hsome m hm j hj
            match m with
            | 0 =>
                have hthis := hrow j (by omega)
                simpa using hthis
            | Nat.succ m' =>
                cases hrr : psx_rows data ch n (i + 1) w.2 with
                | none => rw [hrr] at hsome; simp at hsome
                | some rest =>
                    have hsome' : (psx_rows data ch n (i + 1) w.2).isSome := by rw [hrr]; rfl
                    rw [ih (i + 1) w.2 hw] at hsome'
                    have hthis := hsome' m' (by omega) j hj
                    have heq : i + (m' + 1) = i + 1 + m' := by omega
                    rw [heq]
                    exact hthis
          · intro hall
            have hsome' : (psx_rows data ch n (i + 1) w.2).isSome := by
              rw [ih (i + 1) w.2 hw]
              intro m hm j hj
              have hthis := hall (m + 1) (by omega) j hj
              have heq : i + 1 + m = i + (m + 1) := by omega
              rw [heq]
              exact hthis
            cases hrr : psx_rows data ch n (i + 1) w.2 with
            | none => rw [hrr] at hsome'; simp at hsome'
            | some rest => rfl

/-- **C4.**  PSX-ADPCM decoding fails (the MalformedFrame result) exactly
when some processed frame's predictor byte has high nibble greater
than 4: a single frame with predictor in [0, 4] always decodes (using the
fixed coefficient pair of that predictor, see `psx_decode_frame`) and a
frame with predictor greater than 4 fails immediately. -/
theorem psx_predictor_bound (ch : Nat) (data : List Nat) (hch : 0 < ch) :
    ((psx_decode ch data).isSome ↔
      ∀ k < (psx_sample_count data.length ch + 27) / 28 * ch,
        data.getD (16 * k) 0 / 16 % 16 ≤ 4) ∧
    (∀ k h, data.getD (16 * k) 0 / 16 % 16 ≤ 4 →
      psx_decode_frame data k h =
        some (psx_samples (data.getD (16 * k) 0 % 16)
          (psx_adpcm_coefficients (data.getD (16 * k) 0 / 16 % 16))
          ((List.range 14).flatMap fun y =>
            [data.getD (16 * k + 2 + y) 0 % 16, data.getD (16 * k + 2 + y) 0 / 16 % 16]) h)) ∧
    (∀ k h, 4 < data.getD (16 * k) 0 / 16 % 16 → psx_decode_frame data k h = none) := by
  refine ⟨?_, ?_, ?_⟩
  · unfold psx_decode
    rw [psx_rows_isSome data ch _ 0 _ (List.length_replicate _ _)]
    constructor
    · intro hall k hk
      have hj : k % ch < ch := Nat.mod_lt _ hch
      have hm : k / ch < (psx_sample_count data.length ch + 27) / 28 := by
        by_contra hge
        push_neg at hge
        have h1 : (psx_sample_count data.length ch + 27) / 28 * ch ≤ k / ch * ch :=
          Nat.mul_le_mul_right _ hge
        have h2 : k / ch * ch ≤ k := Nat.div_mul_le_self k ch
        exact Nat.lt_irrefl k (Nat.lt_of_lt_of_le hk (Nat.le_trans h1 h2))
      have hthis := hall (k / ch) hm (k % ch) hj
      have heq : (0 + k / ch) * ch + k % ch = k := by
        rw [Nat.zero_add]
        calc k / ch * ch + k % ch = ch * (k / ch) + k % ch := by ring
          _ = k := Nat.div_add_mod k ch
      rw [heq] at hthis
      exact hthis
    · intro hall m hm j hj
      apply hall
      have h1 : (m + 1) * ch ≤ (psx_sample_count data.length ch + 27) / 28 * ch :=
        Nat.mul_le_mul_right _ hm
      have h3 : m * ch + j < (m + 1) * ch := by
        rw [Nat.succ_mul]
        exact Nat.add_lt_add_left hj _
      calc (0 + m) * ch + j = m * ch + j := by rw [Nat.zero_add]
        _ < (m + 1) * ch := h3
        _ ≤ _ := h1
  · intro k h hle
    simp only [psx_decode_frame]
    rw [if_neg (by omega)]
  · intro k h hgt
    simp only [psx_decode_frame]
    rw [if_pos (by omega)]

/-- Witness for C4: a single-channel stream of one frame with predictor 1
and shift 0 decodes; the claim theorem applied at that input. -/
theorem psx_predictor_bound_witness :
    (((psx_decode 1 ([0x10, 0] ++ List.replicate 14 0)).isSome ↔
      ∀ k < (psx_sample_count ([0x10, 0] ++ List.replicate 14 0).length 1 + 27) / 28 * 1,
        ([0x10, 0] ++ List.replicate 14 0).getD (16 * k) 0 / 16 % 16 ≤ 4) ∧
    (∀ k h, ([0x10, 0] ++ List.replicate 14 0).getD (16 * k) 0 / 16 % 16 ≤ 4 →
      psx_decode_frame ([0x10, 0] ++ List.replicate 14 0) k h =
        some (psx_samples (([0x10, 0] ++ List.replicate 14 0).getD (16 * k) 0 % 16)
          (psx_adpcm_coefficients
            (([0x10, 0] ++ List.replicate 14 0).getD (16 * k) 0 / 16 % 16))
          ((List.range 14).flatMap fun y =>
            [([0x10, 0] ++ List.replicate 14 0).getD (16 * k + 2 + y) 0 % 16,
              ([0x10, 0] ++ List.replicate 14 0).getD (16 * k + 2 + y) 0 / 16 % 16]) h)) ∧
    (∀ k h, 4 < ([0x10, 0] ++ List.replicate 14 0).getD (16 * k) 0 / 16 % 16 →
      psx_decode_frame ([0x10, 0] ++ List.replicate 14 0) k h = none)) :=
  psx_predictor_bound 1 ([0x10, 0] ++ List.replicate 14 0) (by decide)

/-! ## Container data model (`hx2.h`) -/

/-- `enum HX_Language` (hx2.h). -/
inductive HX_Language where
  | de
  | en
  | es
  | fr
  | it
  | unknown
deriving DecidableEq, Repr, Fintype

/-- `hx_language_from_code` (hx2.c). -/
def hx_language_from_code (code : Nat) : HX_Language :=
  if code = 0x64652020 then .de
  else if code = 0x656E2020 then .en
  else if code = 0x65732020 then .es
  else if code = 0x66722020 then .fr
  else if code = 0x69742020 then .it
  else .unknown

/-- `hx_language_to_code` (hx2.c); unknown maps to 0. -/
def hx_language_to_code (l : HX_Language) : Nat :=
  match l with
  | .de => 0x64652020
  | .en => 0x656E2020
  | .es => 0x65732020
  | .fr => 0x66722020
  | .it => 0x69742020
  | .unknown => 0

/-- `hx_language_name` (hx2.c), as a byte string. -/
def hx_language_name (l : HX_Language) : List Nat :=
  match l with
  | .de => "DE".toList.map Char.toNat
  | .en => "EN".toList.map Char.toNat
  | .es => "ES".toList.map Char.toNat
  | .fr => "FR".toList.map Char.toNat
  | .it => "IT".toList.map Char.toNat
  | .unknown => "Unknown Language".toList.map Char.toNat

/-- C-string value of a byte buffer: the bytes up to the first NUL. -/
def cstr (bs : List Nat) : List Nat := bs.takeWhile (· ≠ 0)

/-- `strlen` of a byte buffer value. -/
def cstrlen (bs : List Nat) : Nat := (cstr bs).length

/-- A 256-byte `HX_String` buffer holding the value `bs` (zero padded). -/
def buf256 (bs : List Nat) : List Nat := (bs ++ List.replicate 256 0).take 256

/-- `HX_EventResData` (hx2.h).  The name field holds the C-string value of
the 256-byte buffer; the four floats are kept as 32-bit patterns. -/
structure HX_EventResData where
  type : Nat
  name : List Nat
  flags : Nat
  link : Nat
  c0 : Nat
  c1 : Nat
  c2 : Nat
  c3 : Nat
deriving DecidableEq, Repr

/-- `HX_WavResObj` (hx2.h).  `name` is the raw 256-byte buffer (the
serializer aliases parts of it through `&data->c + 1/2`, see
`wavResObj_rw`); `c0` is the bit pattern of `c[0]`; `c[1]`/`c[2]` are
never serialized and stay zero. -/
structure HX_WavResObj where
  id : Nat
  size : Nat
  c0 : Nat
  flags : Nat
  name : List Nat
deriving DecidableEq, Repr

/-- One language link of `HX_WavResData` (hx2.h, `HX_LINK`). -/
structure HX_WavResLink where
  language : HX_Language
  cuuid : Nat
deriving DecidableEq, Repr

/-- `HX_WavResData` (hx2.h); `num_links` is modelled as `links.length`. -/
structure HX_WavResData where
  res_data : HX_WavResObj
  default_cuuid : Nat
  links : List HX_WavResLink
deriving DecidableEq, Repr

/-- One link of `HX_SwitchResData` (hx2.h). -/
structure HX_SwitchLink where
  case_index : Nat
  cuuid : Nat
deriving DecidableEq, Repr

/-- `HX_SwitchResData` (hx2.h). -/
structure HX_SwitchResData where
  flag : Nat
  unknown : Nat
  unknown2 : Nat
  start_index : Nat
  links : List HX_SwitchLink
deriving DecidableEq, Repr

/-- One link of `HX_RandomResData` (hx2.h); the probability is a float
pattern. -/
structure HX_RandomLink where
  probability : Nat
  cuuid : Nat
deriving DecidableEq, Repr

/-- `HX_RandomResData` (hx2.h). -/
structure HX_RandomResData where
  flags : Nat
  offset : Nat
  throw_probability : Nat
  links : List HX_RandomLink
deriving DecidableEq, Repr

/-- `HX_ProgramResData` (hx2.h).  Only the opaque blob is modelled; the
advisory `links` list recovered by the lazy post-read byte scan is
derived data that is never serialized, and is excluded from the model. -/
structure HX_ProgramResData where
  data : List Nat
deriving DecidableEq, Repr

/-- `HX_IdObjPtr` (hx2.h). -/
structure HX_IdObjPtr where
  id : Nat
  unknown : Nat
  flags : Nat
  unknown2 : Nat
deriving DecidableEq, Repr

/-- `struct waveformat_header` (waveformat.h): the fixed 44-byte layout. -/
structure waveformat_header where
  riff_id : Nat
  riff_length : Nat
  wave_id : Nat
  format_id : Nat
  chunk_size : Nat
  format : Nat
  num_channels : Nat
  sample_rate : Nat
  bytes_per_second : Nat
  block_alignment : Nat
  bits_per_sample : Nat
  subchunk2_id : Nat
  subchunk2_size : Nat
deriving DecidableEq, Repr

/-- `HX_AudioStream` (hx2.h) as filled by the container reader; `fmt` is
kept as the numeric format code the C code assigns from the wave
header. -/
structure HX_AudioStream where
  fmt : Nat
  num_channels : Nat
  endianness : Endian
  sample_rate : Nat
  num_samples : Nat
  wavefile_cuuid : Nat
  size : Nat
  data : List Nat
deriving DecidableEq, Repr

/-- `HX_WaveFileIdObj` (hx2.h). -/
structure HX_WaveFileIdObj where
  id_obj : HX_IdObjPtr
  name : List Nat
  ext_stream_filename : List Nat
  ext_stream_size : Nat
  ext_stream_offset : Nat
  audio_stream : HX_AudioStream
  wave_header : waveformat_header
  extra_wave_data : Option (List Nat)
  extra_wave_data_length : Nat
deriving DecidableEq, Repr

/-- The class-specific body held in `HX_Entry.p_data`. -/
inductive HX_Body where
  | event (d : HX_EventResData)
  | wavres (d : HX_WavResData)
  | switchres (d : HX_SwitchResData)
  | randomres (d : HX_RandomResData)
  | programres (d : HX_ProgramResData)
  | wavefile (d : HX_WaveFileIdObj)
deriving DecidableEq, Repr

/-- An entry-level language link (hx2.h, `HX_LINK` with an extra opaque
word). -/
structure HX_LanguageLink where
  language : HX_Language
  unknown : Nat
  cuuid : Nat
deriving DecidableEq, Repr

/-- `HX_Entry` (hx2.h).  `p_data = none` models a NULL body pointer (an
entry whose body was never read, or whose body read failed part-way). -/
structure HX_Entry where
  i_cuuid : Nat
  i_class : HX_Class
  p_data : Option HX_Body
  num_links : Nat
  links : List Nat
  language_links : List HX_LanguageLink
  file_offset : Nat
  file_size : Nat
  tmp_file_size : Nat
deriving DecidableEq, Repr

/-- Error outcomes of the container routines.  The first three name the
spec's error kinds raised by `hx_read`'s header checks; `ioFailed` is a
read-callback failure, `waveHeaderInvalid` a wave-magic failure,
`assertFailed` a failed C `assert` (which aborts the process), and
`nullDeref` the crash of the unchecked pointer dereferences in
`hx_postread`. -/
inductive HXErr where
  | invalidHeader
  | invalidIndexType
  | emptyFile
  | ioFailed
  | waveHeaderInvalid
  | assertFailed
  | nullDeref
  | writeFailed
deriving DecidableEq, Repr

/-- The zero-initialized body allocated by `hx_entry_data()` in read mode
(fresh memory modelled as zero-filled). -/
def hx_fresh_body (c : HX_Class) : Option HX_Body :=
  match c with
  | .eventResData => some (.event ⟨0, [], 0, 0, 0, 0, 0, 0⟩)
  | .wavResData => some (.wavres ⟨⟨0, 0, 0, 0, List.replicate 256 0⟩, 0, []⟩)
  | .switchResData => some (.switchres ⟨0, 0, 0, 0, []⟩)
  | .randomResData => some (.randomres ⟨0, 0, 0, []⟩)
  | .programResData => some (.programres ⟨[]⟩)
  | .waveFileIdObj => some (.wavefile ⟨⟨0, 0, 0, 0⟩, List.replicate 256 0, [], 0, 0,
      ⟨0, 0, .little, 0, 0, 0, 0, []⟩, ⟨0, 0, 0, 0, 0, 0, 0, 0, 0, 0, 0, 0, 0⟩, none, 0⟩)
  | .invalid => none

/-- `hx_context_find_entry` (hx2.c): linear scan by CUUID; `none` models
the NULL return. -/
def hx_context_find_entry (entries : List HX_Entry) (cuuid : Nat) : Option HX_Entry :=
  entries.find? (fun e => e.i_cuuid = cuuid)

/-- Index of the entry `hx_context_find_entry` returns (the first match). -/
def hx_find_index (entries : List HX_Entry) (cuuid : Nat) : Option Nat :=
  entries.findIdx? (fun e => e.i_cuuid = cuuid)

/-! ## The post-read pass (`hx_postread`, hx2.c)

`hx_postread` dereferences the result of every `hx_context_find_entry`
call, and the `p_data` pointers of the involved entries, without a NULL
check.  The model returns `.error .nullDeref` where the C would crash on
a failed lookup, `.error .bodyNull` where it would crash on a NULL body,
and `.error .typeConfusion` where it would write through a body pointer
of the wrong class (a memory corruption we do not model further). -/

/-- Outcome kinds of the modelled `hx_postread`. -/
inductive PostErr where
  | nullDeref
  | bodyNull
  | typeConfusion
deriving DecidableEq, Repr

/-- The name written by pass (b) of `hx_postread`:
`snprintf(buf, 256, "%s_%s", parent_buffer, hx_language_name(lang))`
(truncating to 255 characters plus NUL), then `memcpy` of the whole
256-byte buffer. -/
def postread_name (parent : List Nat) (lang : HX_Language) : List Nat :=
  buf256 ((cstr parent ++ [95] ++ hx_language_name lang).take 255)

/-- Pass (a) of `hx_postread` (HXG only): for each EventResData entry in
order, look up the linked entry and, when it is a WavResData, `strncpy`
the event's name over the WavResData's name buffer. -/
def hx_postread_pass1 (fuel : Nat) (i : Nat) (entries : List HX_Entry) :
    Except PostErr (List HX_Entry) :=
  match fuel with
  | 0 => .ok entries
  | fuel + 1 =>
      match entries.get? i with
      | none => .ok entries
      | some e =>
          if e.i_class = .eventResData then
            match e.p_data with
            | none => .error .bodyNull
            | some (.event d) =>
                match hx_find_index entries d.link with
                | none => .error .nullDeref
                | some t =>
                    match entries.get? t with
                    | none => .error .nullDeref
                    | some target =>
                        if target.i_class = .wavResData then
                          match target.p_data with
                          | none => .error .bodyNull
                          | some (.wavres wd) =>
                              hx_postread_pass1 fuel (i + 1)
                                (entries.set t { target with p_data := some (.wavres
                                  { wd with res_data :=
                                    { wd.res_data with name := buf256 d.name } }) })
                          | some _ => .error .typeConfusion
                        else hx_postread_pass1 fuel (i + 1) entries
            | some _ => .error .typeConfusion
          else hx_postread_pass1 fuel (i + 1) entries

/-- The inner loop of pass (b): write the derived name into the wave-file
object referenced by each language link of one WavResData. -/
def hx_postread_links (parent : List Nat) (entries : List HX_Entry) :
    List HX_WavResLink → Except PostErr (List HX_Entry)
  | [] => .ok entries
  | l :: rest =>
      match hx_find_index entries l.cuuid with
      | none => .error .nullDeref
      | some t =>
          match entries.get? t with
          | none => .error .nullDeref
          | some target =>
              match target.p_data with
              | none => .error .bodyNull
              | some (.wavefile od) =>
                  hx_postread_links parent
                    (entries.set t { target with p_data := some (.wavefile
                      { od with name := postread_name parent l.language }) }) rest
              | some _ => .error .typeConfusion

/-- Pass (b) of `hx_postread`: for every WavResData entry in order, run
the link loop. -/
def hx_postread_pass2 (fuel : Nat) (i : Nat) (entries : List HX_Entry) :
    Except PostErr (List HX_Entry) :=
  match fuel with
  | 0 => .ok entries
  | fuel + 1 =>
      match entries.get? i with
      | none => .ok entries
      | some e =>
          if e.i_class = .wavResData then
            match e.p_data with
            | none => .error .bodyNull
            | some (.wavres d) =>
                match hx_postread_links d.res_data.name entries d.links with
                | .error err => .error err
                | .ok entries' => hx_postread_pass2 fuel (i + 1) entries'
            | some _ => .error .typeConfusion
          else hx_postread_pass2 fuel (i + 1) entries

/-- `hx_postread` (hx2.c): pass (a) on HXG, then pass (b). -/
def hx_postread (v : HX_Version) (entries : List HX_Entry) :
    Except PostErr (List HX_Entry) :=
  match (if v = .hxg then hx_postread_pass1 entries.length 0 entries else .ok entries) with
  | .error err => .error err
  | .ok entries1 => hx_postread_pass2 entries1.length 0 entries1

/-- Every EventResData entry's link CUUID resolves to an entry of the
container (decidable form of the C10 precondition for pass (a)). -/
def eventLinksResolve (es : List HX_Entry) : Bool :=
  es.all fun e =>
    if e.i_class = .eventResData then
      match e.p_data with
      | some (.event d) => (hx_find_index es d.link).isSome
      | _ => true
    else true

/-- Every CUUID in every WavResData's language-link list resolves to an
entry of the container (decidable form of the C10 precondition for
pass (b)). -/
def wavresLinksResolve (es : List HX_Entry) : Bool :=
  es.all fun e =>
    if e.i_class = .wavResData then
      match e.p_data with
      | some (.wavres d) => d.links.all fun l => (hx_find_index es l.cuuid).isSome
      | _ => true
    else true

/-- Model of the external-stream read callback (`hx->read_cb`): maps the
C-string filename, the offset and the requested size to the bytes read,
`none` modelling a NULL return. -/
def ExtEnv : Type := List Nat → Nat → Nat → Option (List Nat)

/-- `EventResData` class rw (hx2.c): works in both stream modes; the
length prefix is `strlen(data->name)` in write mode and the stream value
in read mode (where the freshly allocated name buffer is empty). -/
def EventResData_rw (s : stream_t) (d : HX_EventResData) : stream_t × HX_EventResData :=
  let r0 := stream_rw32 s d.type
  let r1 := stream_rw32 r0.1 (cstrlen d.name)
  let r2 := stream_rw r1.1 d.name r1.2
  let r3 := stream_rw32 r2.1 d.flags
  let r4 := stream_rwcuuid r3.1 d.link
  let r5 := stream_rwfloat r4.1 d.c0
  let r6 := stream_rwfloat r5.1 d.c1
  let r7 := stream_rwfloat r6.1 d.c2
  let r8 := stream_rwfloat r7.1 d.c3
  (r8.1, { type := r0.2, name := r2.2, flags := r3.2, link := r4.2, c0 := r5.2, c1 := r6.2, c2 := r7.2, c3 := r8.2 })

/-- `WavResObj` class rw (hx2.c).  The three `stream_rwfloat(s, &data->c
+ i)` calls use a pointer to the `float c[3]` ARRAY, so `+ 1` and `+ 2`
advance by 12 bytes each: `+ 0` covers `c[0]`, `+ 1` covers the `flags`
byte and `name[0..2]`, `+ 2` covers `name[11..14]` (little-endian host
layout of `struct WavResObj`). -/
def wavResObj_rw (v : HX_Version) (s : stream_t) (d : HX_WavResObj) :
    stream_t × HX_WavResObj :=
  let r0 := stream_rw32 s d.id
  let (s1, name1, size1) :=
    if v = .hxc then
      let rl := stream_rw32 r0.1 (cstrlen d.name)
      let rn := stream_rw rl.1 d.name rl.2
      (rn.1, rn.2, d.size)
    else (r0.1, d.name, d.size)
  let (s2, name2, size2) :=
    if v = .hxg ∨ v = .hx2 then
      let rs := stream_rw32 s1 size1
      (rs.1, List.replicate 256 0, rs.2)
    else (s1, name1, size1)
  let rc0 := stream_rwfloat s2 d.c0
  let alias1 := d.flags % 256 + name2.getD 0 0 % 256 * 256 +
    name2.getD 1 0 % 256 * 65536 + name2.getD 2 0 % 256 * 16777216
  let rc1 := stream_rwfloat rc0.1 alias1
  let flags1 := rc1.2 % 256
  let name3 := ((name2.set 0 (rc1.2 / 256 % 256)).set 1
    (rc1.2 / 65536 % 256)).set 2 (rc1.2 / 16777216 % 256)
  let alias2 := name3.getD 11 0 % 256 + name3.getD 12 0 % 256 * 256 +
    name3.getD 13 0 % 256 * 65536 + name3.getD 14 0 % 256 * 16777216
  let rc2 := stream_rwfloat rc1.1 alias2
  let name4 := (((name3.set 11 (rc2.2 % 256)).set 12 (rc2.2 / 256 % 256)).set 13
    (rc2.2 / 65536 % 256)).set 14 (rc2.2 / 16777216 % 256)
  let rf := stream_rw8 rc2.1 flags1
  (rf.1, { id := r0.2, size := size2, c0 := rc0.2, flags := rf.2, name := name4 })

/-- The per-link loop of `WavResData` (hx2.c): language code then CUUID;
in read mode the language is decoded from the code read. -/
def wavlinks_rw (s : stream_t) : List HX_WavResLink → stream_t × List HX_WavResLink
  | [] => (s, [])
  | l :: rest =>
      let r1 := stream_rw32 s (hx_language_to_code l.language)
      let r2 := stream_rwcuuid r1.1 l.cuuid
      let rr := wavlinks_rw r2.1 rest
      (rr.1, { language := if s.mode = .read then hx_language_from_code r1.2 else l.language, cuuid := r2.2 } :: rr.2)

/-- `WavResData` class rw (hx2.c): the `HX_WAVRESDATA_FLAG_MULTIPLE` bit
of the flags gates the link-count word; on HXG a nonzero default CUUID
with that bit set fails a C `assert`. -/
def wavResData_rw (v : HX_Version) (s : stream_t) (d : HX_WavResData) :
    Except HXErr (stream_t × HX_WavResData) :=
  let ro := wavResObj_rw v s d.res_data
  let rc := stream_rwcuuid ro.1 d.default_cuuid
  if ro.2.flags / 2 % 2 = 1 then
    if v = .hxg ∧ rc.2 ≠ 0 then .error .assertFailed
    else
      let rn := stream_rw32 rc.1 d.links.length
      let ls := if s.mode = .read then List.replicate rn.2 (⟨.de, 0⟩ : HX_WavResLink)
        else d.links
      let rl := wavlinks_rw rn.1 ls
      .ok (rl.1, { res_data := ro.2, default_cuuid := rc.2, links := rl.2 })
  else
    let ls := if s.mode = .read then [] else d.links
    let rl := wavlinks_rw rc.1 ls
    .ok (rl.1, { res_data := ro.2, default_cuuid := rc.2, links := rl.2 })

/-- The per-link loop of `SwitchResData` (hx2.c). -/
def switchlinks_rw (s : stream_t) : List HX_SwitchLink → stream_t × List HX_SwitchLink
  | [] => (s, [])
  | l :: rest =>
      let r1 := stream_rw32 s l.case_index
      let r2 := stream_rwcuuid r1.1 l.cuuid
      let rr := switchlinks_rw r2.1 rest
      (rr.1, { case_index := r1.2, cuuid := r2.2 } :: rr.2)

/-- `SwitchResData` class rw (hx2.c). -/
def SwitchResData_rw (s : stream_t) (d : HX_SwitchResData) :
    stream_t × HX_SwitchResData :=
  let r0 := stream_rw32 s d.flag
  let r1 := stream_rw32 r0.1 d.unknown
  let r2 := stream_rw32 r1.1 d.unknown2
  let r3 := stream_rw32 r2.1 d.start_index
  let r4 := stream_rw32 r3.1 d.links.length
  let ls := if s.mode = .read then List.replicate r4.2 (⟨0, 0⟩ : HX_SwitchLink) else d.links
  let rl := switchlinks_rw r4.1 ls
  (rl.1, { flag := r0.2, unknown := r1.2, unknown2 := r2.2, start_index := r3.2, links := rl.2 })

/-- The per-link loop of `RandomResData` (hx2.c). -/
def randomlinks_rw (s : stream_t) : List HX_RandomLink → stream_t × List HX_RandomLink
  | [] => (s, [])
  | l :: rest =>
      let r1 := stream_rwfloat s l.probability
      let r2 := stream_rwcuuid r1.1 l.cuuid
      let rr := randomlinks_rw r2.1 rest
      (rr.1, { probability := r1.2, cuuid := r2.2 } :: rr.2)

/-- `RandomResData` class rw (hx2.c). -/
def RandomResData_rw (s : stream_t) (d : HX_RandomResData) :
    stream_t × HX_RandomResData :=
  let r0 := stream_rw32 s d.flags
  let r1 := stream_rwfloat r0.1 d.offset
  let r2 := stream_rwfloat r1.1 d.throw_probability
  let r3 := stream_rw32 r2.1 d.links.length
  let ls := if s.mode = .read then List.replicate r3.2 (⟨0, 0⟩ : HX_RandomLink) else d.links
  let rl := randomlinks_rw r3.1 ls
  (rl.1, { flags := r0.2, offset := r1.2, throw_probability := r2.2, links := rl.2 })

/-- `ProgramResData` class rw (hx2.c): copies the raw blob.  In read mode
`_tmp_file_size` becomes `_file_size - (4 + classname_length + 8)` in
unsigned 32-bit arithmetic and `_file_size` bytes are read (the advisory
link scan over the blob is derived data, excluded from the model); in
write mode `_tmp_file_size` bytes are written.  Returns the new
`_tmp_file_size`. -/
def ProgramResData_rw (v : HX_Version) (file_size tmp_file_size : Nat) (s : stream_t)
    (d : HX_ProgramResData) : stream_t × HX_ProgramResData × Nat :=
  let length := (hx_class_name .programResData v).length
  let tmp2 := if s.mode = .read
    then (file_size + 4294967296 - (4 + length + 8) % 4294967296) % 4294967296
    else tmp_file_size
  let r := stream_rw s d.data (if s.mode = .read then file_size else tmp2)
  (r.1, { data := r.2 }, tmp2)

/-- `IdObjPtrRW` (hx2.c): the flags are a 32-bit word on HXG and a single
byte elsewhere. -/
def idObjPtrRW (v : HX_Version) (s : stream_t) (d : HX_IdObjPtr) :
    stream_t × HX_IdObjPtr :=
  let r0 := stream_rw32 s d.id
  let r1 := stream_rwfloat r0.1 d.unknown
  if v = .hxg then
    let r2 := stream_rw32 r1.1 d.flags
    let r3 := stream_rw32 r2.1 d.unknown2
    (r3.1, { id := r0.2, unknown := r1.2, flags := r2.2, unknown2 := r3.2 })
  else
    let r2 := stream_rw8 r1.1 d.flags
    (r2.1, { id := r0.2, unknown := r1.2, flags := r2.2, unknown2 := d.unknown2 })

/-- `waveformat_header_rw` (waveformat.c): thirteen primitive transfers;
the returned flag checks the RIFF/WAVE/fmt magics on the header values
after the call. -/
def waveformat_header_rw (s : stream_t) (h : waveformat_header) :
    stream_t × waveformat_header × Bool :=
  let r1 := stream_rw32 s h.riff_id
  let r2 := stream_rw32 r1.1 h.riff_length
  let r3 := stream_rw32 r2.1 h.wave_id
  let r4 := stream_rw32 r3.1 h.format_id
  let r5 := stream_rw32 r4.1 h.chunk_size
  let r6 := stream_rw16 r5.1 h.format
  let r7 := stream_rw16 r6.1 h.num_channels
  let r8 := stream_rw32 r7.1 h.sample_rate
  let r9 := stream_rw32 r8.1 h.bytes_per_second
  let r10 := stream_rw16 r9.1 h.block_alignment
  let r11 := stream_rw16 r10.1 h.bits_per_sample
  let r12 := stream_rw32 r11.1 h.subchunk2_id
  let r13 := stream_rw32 r12.1 h.subchunk2_size
  let h2 : waveformat_header := { riff_id := r1.2, riff_length := r2.2, wave_id := r3.2, format_id := r4.2, chunk_size := r5.2, format := r6.2, num_channels := r7.2, sample_rate := r8.2, bytes_per_second := r9.2, block_alignment := r10.2, bits_per_sample := r11.2, subchunk2_id := r12.2, subchunk2_size := r13.2 }
  (r13.1, h2, decide (h2.riff_id = 0x46464952 ∧ h2.wave_id = 0x45564157 ∧
    h2.format_id = 0x20746D66))

/-- The trailing extra-wave-data phase of `WaveFileIdObj` (hx2.c).  In
read mode the length is `(riff_length + 8) - subchunk2_size - 44` in
unsigned 32-bit arithmetic (`+4` when external, `+1` more when internal
and positive); in write mode the stored bytes are emitted when present.
Returns the stream, the stored extra data and its stored length. -/
def wavefile_extra (s : stream_t) (ext : Bool) (wh : waveformat_header)
    (d : HX_WaveFileIdObj) : stream_t × Option (List Nat) × Nat :=
  if s.mode = .read then
    let len0 := (wh.riff_length + 8 + 2 * 4294967296 - wh.subchunk2_size - 44) % 4294967296
    let len1 := if ext then (len0 + 4) % 4294967296 else len0
    if 0 < len1 then
      let len2 := if ext then len1 else (len1 + 1) % 4294967296
      (stream_advance s len2, some (readBytes s.buf s.pos len2), len2)
    else (s, none, len1)
  else
    match d.extra_wave_data with
    | some ex =>
        let r := stream_rw s ex d.extra_wave_data_length
        (r.1, some ex, d.extra_wave_data_length)
    | none => (s, none, d.extra_wave_data_length)

/-- `WaveFileIdObj` class rw (hx2.c).  The Boolean result is the C
function's zero return (soft failure: wave-header magic mismatch or a
NULL external-read callback result); a failed `assert` is a hard error.
Stripping a leading `".\"` from the external filename is modelled on the
C-string value.  In write mode the external write callback has no
observable effect on the model state. -/
def WaveFileIdObj_rw (env : ExtEnv) (v : HX_Version) (cuuid : Nat) (s : stream_t)
    (d : HX_WaveFileIdObj) : Except HXErr (stream_t × HX_WaveFileIdObj × Bool) :=
  let ri := idObjPtrRW v s d.id_obj
  let ext := ri.2.flags % 2 = 1
  let (s1, fname) :=
    if ext then
      let rl := stream_rw32 ri.1 (cstrlen d.ext_stream_filename)
      let rf := stream_rw rl.1 d.ext_stream_filename rl.2
      (rf.1, rf.2)
    else (ri.1, d.ext_stream_filename)
  let esz0 := if ext then d.ext_stream_size else 0
  let eoff0 := if ext then d.ext_stream_offset else 0
  let rh := waveformat_header_rw s1 d.wave_header
  if rh.2.2 = false then .ok (rh.1, d, false)
  else
    let wh := rh.2.1
    let a1 := if s.mode = .read then
        { d.audio_stream with fmt := wh.format, num_channels := wh.num_channels, endianness := s.endianness, sample_rate := wh.sample_rate, size := wh.subchunk2_size }
      else d.audio_stream
    let a2 := { a1 with wavefile_cuuid := cuuid }
    if ext then
      if wh.subchunk2_id ≠ 0x78746164 then .error .assertFailed
      else if wh.subchunk2_size ≠ 8 then .error .assertFailed
      else
        let rs := stream_rw32 rh.1 esz0
        let ro := stream_rw32 rs.1 eoff0
        if s.mode = .read then
          let fname2 := if fname.take 2 = [46, 92] then cstr (fname.drop 2) else fname
          match env (cstr fname2) ro.2 rs.2 with
          | none => .ok (ro.1, d, false)
          | some bytes =>
              let a3 := { a2 with size := rs.2, data := bytes }
              let ex := wavefile_extra ro.1 ext wh d
              .ok (ex.1, { id_obj := ri.2, name := d.name, ext_stream_filename := fname2, ext_stream_size := rs.2, ext_stream_offset := ro.2, audio_stream := a3, wave_header := wh, extra_wave_data := ex.2.1, extra_wave_data_length := ex.2.2 }, true)
        else
          let ex := wavefile_extra ro.1 ext wh d
          .ok (ex.1, { id_obj := ri.2, name := d.name, ext_stream_filename := fname, ext_stream_size := rs.2, ext_stream_offset := ro.2, audio_stream := a2, wave_header := wh, extra_wave_data := ex.2.1, extra_wave_data_length := ex.2.2 }, true)
    else
      if wh.subchunk2_id ≠ 0x61746164 then .error .assertFailed
      else
        let rd := stream_rw rh.1 (if s.mode = .read then [] else a2.data) wh.subchunk2_size
        let a3 := { a2 with data := rd.2 }
        let ex := wavefile_extra rd.1 ext wh d
        .ok (ex.1, { id_obj := ri.2, name := d.name, ext_stream_filename := fname, ext_stream_size := esz0, ext_stream_offset := eoff0, audio_stream := a3, wave_header := wh, extra_wave_data := ex.2.1, extra_wave_data_length := ex.2.2 }, true)

/-- The class-table dispatch of `hx_entry_rw` (hx2.c).  The C code
dispatches on the index class and reinterprets `p_data`; a body value of
the wrong shape for the class is undefined behaviour, modelled as a hard
error.  Returns the stream, the body after the call, the C function's
Boolean result and the (possibly updated) `_tmp_file_size`. -/
def hx_class_rw (env : ExtEnv) (v : HX_Version) (entry : HX_Entry) (b : HX_Body)
    (s : stream_t) : Except HXErr (stream_t × HX_Body × Bool × Nat) :=
  match entry.i_class, b with
  | .eventResData, .event d =>
      let r := EventResData_rw s d
      .ok (r.1, .event r.2, true, entry.tmp_file_size)
  | .wavResData, .wavres d =>
      (wavResData_rw v s d).map fun r => (r.1, .wavres r.2, true, entry.tmp_file_size)
  | .switchResData, .switchres d =>
      let r := SwitchResData_rw s d
      .ok (r.1, .switchres r.2, true, entry.tmp_file_size)
  | .randomResData, .randomres d =>
      let r := RandomResData_rw s d
      .ok (r.1, .randomres r.2, true, entry.tmp_file_size)
  | .programResData, .programres d =>
      let r := ProgramResData_rw v entry.file_size entry.tmp_file_size s d
      .ok (r.1, .programres r.2.1, true, r.2.2)
  | .waveFileIdObj, .wavefile d =>
      (WaveFileIdObj_rw env v entry.i_cuuid s d).map fun r =>
        (r.1, .wavefile r.2.1, r.2.2, entry.tmp_file_size)
  | _, _ => .error .nullDeref

/-- `hx_entry_rw` (hx2.c): length-prefixed class name, CUUID, then the
class body.  In read mode a class-name or CUUID mismatch with the index
is the C function's `-1` return (`false` here) and the body is not
parsed; a body whose class function failed part-way is modelled as
absent.  In write mode a NULL `p_data` would be dereferenced by the
class function (hard error). -/
def hx_entry_rw (env : ExtEnv) (v : HX_Version) (s : stream_t) (entry : HX_Entry) :
    Except HXErr (stream_t × HX_Entry × Bool) :=
  let cn := hx_class_name entry.i_class v
  let r1 := stream_rw32 s (if s.mode = .write then cn.length else 0)
  let r2 := stream_rw r1.1 (if s.mode = .write then cn.map Char.toNat else []) r1.2
  if s.mode = .read ∧ hx_class_from_string ((cstr r2.2).map Char.ofNat) ≠ entry.i_class then
    .ok (r2.1, entry, false)
  else
    let rc := stream_rwcuuid r2.1 entry.i_cuuid
    if rc.2 ≠ entry.i_cuuid then .ok (rc.1, entry, false)
    else if entry.i_class = .invalid then .ok (rc.1, entry, true)
    else
      match (if s.mode = .read then hx_fresh_body entry.i_class else entry.p_data) with
      | none => .error .nullDeref
      | some b =>
          match hx_class_rw env v entry b rc.1 with
          | .error err => .error err
          | .ok (s2, b2, ok2, tmp2) =>
              if ok2 then
                .ok (s2, { entry with p_data := some b2, tmp_file_size := tmp2 }, true)
              else
                .ok (s2, { entry with
                  p_data := if s.mode = .read then none else entry.p_data,
                  tmp_file_size := tmp2 }, false)

/-- The CUUID-list loop of the type-2 index (hx2.c). -/
def cuuids_rw (s : stream_t) : List Nat → stream_t × List Nat
  | [] => (s, [])
  | c :: rest =>
      let r := stream_rwcuuid s c
      let rr := cuuids_rw r.1 rest
      (rr.1, r.2 :: rr.2)

/-- The language-link loop of the type-2 index (hx2.c). -/
def langlinks_rw (s : stream_t) : List HX_LanguageLink → stream_t × List HX_LanguageLink
  | [] => (s, [])
  | l :: rest =>
      let r1 := stream_rw32 s (hx_language_to_code l.language)
      let r2 := stream_rw32 r1.1 l.unknown
      let r3 := stream_rwcuuid r2.1 l.cuuid
      let rr := langlinks_rw r3.1 rest
      (rr.1, { language := if s.mode = .read then hx_language_from_code r1.2 else l.language, unknown := r2.2, cuuid := r3.2 } :: rr.2)

/-- The entry loop of `hx_read` (hx2.c): per index record, the class name
(an unknown class warns and `continue`s without reading the rest of the
record, leaving a default entry), the CUUID, the file offset and size, a
word asserted zero, the link count, the type-2 link and language blocks,
then the body parsed at the recorded offset (its result ignored). -/
def hx_read_entries (env : ExtEnv) (v : HX_Version) (index_type : Nat) :
    Nat → stream_t → Except HXErr (stream_t × List HX_Entry)
  | 0, s => .ok (s, [])
  | n + 1, s =>
      let r1 := stream_rw32 s 0
      let cname := readBytes r1.1.buf r1.1.pos r1.2
      let s2 := stream_advance r1.1 r1.2
      let cls := hx_class_from_string ((cstr cname).map Char.ofNat)
      if cls = .invalid then
        match hx_read_entries env v index_type n s2 with
        | .error err => .error err
        | .ok (s3, es) =>
            .ok (s3, { i_cuuid := 0, i_class := .invalid, p_data := none, num_links := 0, links := [], language_links := [], file_offset := 0, file_size := 0, tmp_file_size := 0 } :: es)
      else
        let rc := stream_rwcuuid s2 0
        let ro := stream_rw32 rc.1 0
        let rsz := stream_rw32 ro.1 0
        let rz := stream_rw32 rsz.1 0
        let rl := stream_rw32 rz.1 0
        if rz.2 ≠ 0 then .error .assertFailed
        else
          let u1 := if index_type = 2 then cuuids_rw rl.1 (List.replicate rl.2 0)
            else (rl.1, [])
          let u2 := if index_type = 2 then stream_rw32 u1.1 0 else (u1.1, 0)
          let u3 := if index_type = 2 then
              langlinks_rw u2.1 (List.replicate u2.2 (⟨.de, 0, 0⟩ : HX_LanguageLink))
            else (u2.1, [])
          let entry0 : HX_Entry := { i_cuuid := rc.2, i_class := cls, p_data := none, num_links := rl.2, links := u1.2, language_links := u3.2, file_offset := ro.2, file_size := rsz.2, tmp_file_size := 0 }
          let pos := u3.1.pos
          match hx_entry_rw env v (stream_seek u3.1 ro.2) entry0 with
          | .error err => .error err
          | .ok (sb, entry1, _) =>
              match hx_read_entries env v index_type n (stream_seek sb pos) with
              | .error err => .error err
              | .ok (s3, es) => .ok (s3, entry1 :: es)

/-- `hx_read` (hx2.c): index offset word, seek, the three header words
with their checks, the entry loop, then the post-read pass (whose
unchecked dereferences are the hard `nullDeref` outcome). -/
def hx_read (env : ExtEnv) (v : HX_Version) (s : stream_t) : Except HXErr (List HX_Entry) :=
  let r0 := stream_rw32 s 0
  let s1 := stream_seek r0.1 r0.2
  let r1 := stream_rw32 s1 0
  let r2 := stream_rw32 r1.1 0
  let r3 := stream_rw32 r2.1 0
  if r1.2 ≠ 0x58444E49 then .error .invalidHeader
  else if r2.2 ≠ 1 ∧ r2.2 ≠ 2 then .error .invalidIndexType
  else if r3.2 = 0 then .error .emptyFile
  else
    match hx_read_entries env v r2.2 r3.2 r3.1 with
    | .error err => .error err
    | .ok (_, entries) =>
        match hx_postread v entries with
        | .ok es => .ok es
        | .error _ => .error .nullDeref

/-- The entry loop of `hx_write` (hx2.c): each body is written at the
main stream's current position by `hx_entry_rw` (whose `-1` result is
not zero and so never trips the caller's check), while the index record
is appended to the separate index stream — including the entry's STALE
`_file_offset` and `_file_size` fields, which nothing updates to the
positions just written. -/
def hx_write_entries (env : ExtEnv) (v : HX_Version) :
    List HX_Entry → stream_t → stream_t → Except HXErr (stream_t × stream_t)
  | [], s, is => .ok (s, is)
  | e :: rest, s, is =>
      match hx_entry_rw env v s e with
      | .error err => .error err
      | .ok (s2, _, _) =>
          let cn := hx_class_name e.i_class v
          let i1 := stream_rw32 is cn.length
          let i2 := stream_rw i1.1 (cn.map Char.toNat) i1.2
          let i3 := stream_rwcuuid i2.1 e.i_cuuid
          let i4 := stream_rw32 i3.1 e.file_offset
          let i5 := stream_rw32 i4.1 e.file_size
          let i6 := stream_rw32 i5.1 0
          let i7 := stream_rw32 i6.1 e.num_links
          let i8 := cuuids_rw i7.1 e.links
          let i9 := stream_rw32 i8.1 e.language_links.length
          let i10 := langlinks_rw i9.1 e.language_links
          hx_write_entries env v rest s2 i10.1

/-- `hx_write` (hx2.c): reserve four bytes, write all bodies
sequentially, append the index stream (magic, type 2, count, records),
pad HXG/HX2 files with 32 zero bytes, and backpatch the index offset at
position 0.  The write stream is allocated as in `hx_context_write`. -/
def hx_write (env : ExtEnv) (v : HX_Version) (entries : List HX_Entry) (e : Endian) :
    Except HXErr stream_t :=
  let s0 := stream_alloc 0x4FFFFF .write e
  let is0 := stream_alloc (entries.length * 0xFF) .write e
  let h1 := stream_rw32 is0 0x58444E49
  let h2 := stream_rw32 h1.1 2
  let h3 := stream_rw32 h2.1 entries.length
  match hx_write_entries env v entries { s0 with pos := 4 } h3.1 with
  | .error err => .error err
  | .ok (s2, is2) =>
      let index_offset := s2.pos
      let r := stream_rw s2 (readBytes is2.buf 0 is2.pos) is2.pos
      let s3 := r.1
      let s4 := if v = .hxg ∨ v = .hx2 then
          { s3 with size := s3.pos + 32, buf := writeBytes s3.buf s3.pos (List.replicate 32 0) }
        else { s3 with size := s3.pos }
      let r2 := stream_rw32 (stream_seek s4 0) index_offset
      .ok r2.1

/-- The external-read environment with no external files (every callback
returns NULL). -/
def extEnvNone : ExtEnv := fun _ _ _ => none

/-- The index-table offset `hx_read` reads at the stream position: the
first 32-bit word. -/
def index_offset_of (s : stream_t) : Nat :=
  endianVal32 s.endianness (readBytes s.buf s.pos 4)

/-- The index magic word, read at the index-table offset. -/
def index_code_of (s : stream_t) : Nat :=
  endianVal32 s.endianness (readBytes s.buf (index_offset_of s) 4)

/-- The index type word, read after the magic. -/
def index_type_of (s : stream_t) : Nat :=
  endianVal32 s.endianness (readBytes s.buf (index_offset_of s + 4) 4)

/-- The entry-count word, read after the index type. -/
def num_entries_of (s : stream_t) : Nat :=
  endianVal32 s.endianness (readBytes s.buf (index_offset_of s + 4 + 4) 4)

/-- Write a container and read the written buffer back, as
`hx_context_write` followed by `hx_context_open` would (the re-read
stream covers the written buffer with the version's endianness). -/
def hx_rewrite_read (env : ExtEnv) (v : HX_Version) (es : List HX_Entry) :
    Except HXErr (List HX_Entry) :=
  match hx_write env v es (hx_version_endianness v) with
  | .error err => .error err
  | .ok s2 => hx_read env v (stream_create s2.buf s2.size .read s2.endianness)

/-- A valid single-entry HXC container whose body is recorded (and
stored) at file offset 200 rather than immediately after the index:
index-offset word 4, a type-1 index at 4 with one EventResData record
(CUUID `0x11`, file offset 200, file size 61), and the 61-byte body at
200. -/
def ctrFile : List Nat := [4, 0, 0, 0, 73, 78, 68, 88, 1, 0, 0, 0, 1, 0, 0, 0, 13, 0, 0, 0, 67, 69, 118, 101, 110, 116, 82, 101, 115, 68, 97, 116, 97, 0, 0, 0, 0, 17, 0, 0, 0, 200, 0, 0, 0, 61, 0, 0, 0, 0, 0, 0, 0, 0, 0, 0, 0, 0, 0, 0, 0, 0, 0, 0, 0, 0, 0, 0, 0, 0, 0, 0, 0, 0, 0, 0, 0, 0, 0, 0, 0, 0, 0, 0, 0, 0, 0, 0, 0, 0, 0, 0, 0, 0, 0, 0, 0, 0, 0, 0, 0, 0, 0, 0, 0, 0, 0, 0, 0, 0, 0, 0, 0, 0, 0, 0, 0, 0, 0, 0, 0, 0, 0, 0, 0, 0, 0, 0, 0, 0, 0, 0, 0, 0, 0, 0, 0, 0, 0, 0, 0, 0, 0, 0, 0, 0, 0, 0, 0, 0, 0, 0, 0, 0, 0, 0, 0, 0, 0, 0, 0, 0, 0, 0, 0, 0, 0, 0, 0, 0, 0, 0, 0, 0, 0, 0, 0, 0, 0, 0, 0, 0, 0, 0, 0, 0, 0, 0, 0, 0, 0, 0, 0, 0, 0, 0, 0, 0, 0, 0, 13, 0, 0, 0, 67, 69, 118, 101, 110, 116, 82, 101, 115, 68, 97, 116, 97, 0, 0, 0, 0, 17, 0, 0, 0, 0, 0, 0, 0, 0, 0, 0, 0, 0, 0, 0, 0, 0, 0, 0, 0, 0, 0, 0, 0, 0, 0, 0, 0, 0, 0, 0, 0, 0, 0, 0, 0, 0, 0, 0, 0]

/-- The entry sequence `hx_read` yields on `ctrFile`: one fully parsed
EventResData entry. -/
def ctrE1 : List HX_Entry :=
  [{ i_cuuid := 17, i_class := .eventResData,
     p_data := some (.event ⟨0, [], 0, 0, 0, 0, 0, 0⟩),
     num_links := 0, links := [], language_links := [],
     file_offset := 200, file_size := 61, tmp_file_size := 0 }]

/-- The entry sequence obtained by writing `ctrE1` and reading the
result: the stale index offset 200 points into zero padding of the
written file, the body fails to parse, and the body contents are lost. -/
def ctrE2 : List HX_Entry :=
  [{ i_cuuid := 17, i_class := .eventResData, p_data := none,
     num_links := 0, links := [], language_links := [],
     file_offset := 200, file_size := 61, tmp_file_size := 0 }]

/-- The wave-file name field of the entry at index `k` (`none` when the
index is out of range or the body is not a `WaveFileIdObj`). -/
def wfNameAt (es : List HX_Entry) (k : Nat) : Option (List Nat) :=
  match es.get? k with
  | some e =>
      match e.p_data with
      | some (.wavefile od) => some od.name
      | _ => none
  | none => none

/-- The parent-name buffer pass (b) reads from the `WavResData` at index
`j` (empty when that index does not hold a `WavResData` body). -/
def parentNameAt (es : List HX_Entry) (j : Nat) : List Nat :=
  match es.get? j with
  | some e =>
      match e.p_data with
      | some (.wavres d) => d.res_data.name
      | _ => []
  | none => []

/-- Entry `j` is a `WavResData` whose language link `l` references the
entry at index `k` (via the CUUID scan of `hx_context_find_entry`). -/
def RefPair (es : List HX_Entry) (j k : Nat) (l : HX_WavResLink) : Prop :=
  ∃ e d, es.get? j = some e ∧ e.i_class = .wavResData ∧
    e.p_data = some (.wavres d) ∧ l ∈ d.links ∧ hx_find_index es l.cuuid = some k

/-- An entry with its wave-file name blanked: everything `hx_postread`'s
pass (b) can modify is erased, everything it reads is kept. -/
def wfSkel (e : HX_Entry) : HX_Entry :=
  { e with p_data := e.p_data.map (fun b => match b with
      | .wavefile od => .wavefile { od with name := [] }
      | b => b) }

/-- A `WavResData` entry with one language link, used in concrete
post-read naming scenarios. -/
def exWavres (cu : Nat) (nm : List Nat) (link : Nat) : HX_Entry :=
  { i_cuuid := cu, i_class := .wavResData,
    p_data := some (.wavres ⟨⟨0, 0, 0, 0, nm⟩, 0, [⟨.en, link⟩]⟩),
    num_links := 0, links := [], language_links := [],
    file_offset := 0, file_size := 0, tmp_file_size := 0 }

/-- A `WaveFileIdObj` entry with a given name buffer, used in concrete
post-read naming scenarios. -/
def exWavefile (cu : Nat) (nm : List Nat) : HX_Entry :=
  { i_cuuid := cu, i_class := .waveFileIdObj,
    p_data := some (.wavefile ⟨⟨0, 0, 0, 0⟩, nm, [], 0, 0,
      ⟨0, 0, .little, 0, 0, 0, 0, []⟩, ⟨0, 0, 0, 0, 0, 0, 0, 0, 0, 0, 0, 0, 0⟩,
      none, 0⟩),
    num_links := 0, links := [], language_links := [],
    file_offset := 0, file_size := 0, tmp_file_size := 0 }

section PostreadLemmas

/-- The data of an entry that `hx_postread` never modifies: the CUUID,
the class, the event body, the WavResData link list, and the shape of
the body (the passes only rewrite name buffers of WavResData and
WaveFileIdObj bodies). -/
def postSkel (e : HX_Entry) :
    Nat × HX_Class × Option (Option HX_EventResData) ×
      Option (Option (List HX_WavResLink)) :=
  (e.i_cuuid, e.i_class,
   e.p_data.map (fun b => match b with | .event d => some d | _ => none),
   e.p_data.map (fun b => match b with | .wavres d => some d.links | _ => none))

theorem set_getElem_self {α : Type} (l : List α) (t : Nat) (a : α)
    (h : l[t]? = some a) : l.set t a = l := by
  apply List.ext_getElem?
  intro j
  rw [List.getElem?_set]
  by_cases hj : t = j
  · subst hj
    rw [if_pos rfl, if_pos (by
      rcases List.getElem?_eq_some_iff.mp h with ⟨hlt, _⟩
      exact hlt)]
    exact h.symm
  · rw [if_neg hj]

theorem findIdxAux (p : HX_Entry → Bool) :
    ∀ (es : List HX_Entry) (i t : Nat),
      List.findIdx? p es i = some t →
      ∃ j e, t = i + j ∧ es[j]? = some e ∧ p e = true := by
  intro es
  induction es with
  | nil => intro i t h; simp [List.findIdx?] at h
  | cons x xs ih =>
      intro i t h
      rw [List.findIdx?_cons] at h
      by_cases hp : p x
      · rw [if_pos hp] at h
        refine ⟨0, x, ?_, by simp, hp⟩
        simpa using (Option.some.injEq _ _ ▸ h).symm
      · rw [if_neg (by simpa using hp)] at h
        obtain ⟨j, e, ht, hget, hpe⟩ := ih (i + 1) t h
        exact ⟨j + 1, e, by omega, by simpa using hget, hpe⟩

theorem hx_find_index_mem (es : List HX_Entry) (c : Nat) (t : Nat)
    (h : hx_find_index es c = some t) :
    ∃ e, es[t]? = some e ∧ e.i_cuuid = c := by
  obtain ⟨j, e, ht, hget, hpe⟩ := findIdxAux _ es 0 t h
  refine ⟨e, ?_, by simpa using hpe⟩
  rw [show t = j by omega]
  exact hget

theorem findIdxAux_congr (p q : HX_Entry → Bool) :
    ∀ (es es' : List HX_Entry) (i : Nat),
      (es.map p = es'.map q) →
      List.findIdx? p es i = List.findIdx? q es' i := by
  intro es
  induction es with
  | nil =>
      intro es' i h
      cases es' with
      | nil => rfl
      | cons y ys => simp at h
  | cons x xs ih =>
      intro es' i h
      cases es' with
      | nil => simp at h
      | cons y ys =>
          simp only [List.map_cons, List.cons.injEq] at h
          obtain ⟨h1, h2⟩ := h
          rw [List.findIdx?_cons, List.findIdx?_cons, h1, ih ys (i + 1) h2]

theorem hx_find_index_congr (es es' : List HX_Entry)
    (h : es.map HX_Entry.i_cuuid = es'.map HX_Entry.i_cuuid) (c : Nat) :
    hx_find_index es c = hx_find_index es' c := by
  unfold hx_find_index
  apply findIdxAux_congr
  have h1 : es.map (fun e => decide (e.i_cuuid = c)) =
      (es.map HX_Entry.i_cuuid).map (fun x => decide (x = c)) := by
    rw [List.map_map]; rfl
  have h2 : es'.map (fun e => decide (e.i_cuuid = c)) =
      (es'.map HX_Entry.i_cuuid).map (fun x => decide (x = c)) := by
    rw [List.map_map]; rfl
  rw [h1, h2, h]

theorem cuuids_of_postSkel (es es' : List HX_Entry)
    (h : es.map postSkel = es'.map postSkel) :
    es.map HX_Entry.i_cuuid = es'.map HX_Entry.i_cuuid := by
  have hc := congrArg (List.map Prod.fst) h
  rw [List.map_map, List.map_map] at hc
  exact hc

theorem postSkel_update_wavres (target : HX_Entry) (wd : HX_WavResData) (nm : List Nat)
    (h : target.p_data = some (.wavres wd)) :
    postSkel { target with p_data := some (.wavres
      { wd with res_data := { wd.res_data with name := nm } }) } = postSkel target := by
  simp [postSkel, h]

theorem postSkel_update_wavefile (target : HX_Entry) (od : HX_WaveFileIdObj) (nm : List Nat)
    (h : target.p_data = some (.wavefile od)) :
    postSkel { target with p_data := some (.wavefile { od with name := nm }) } =
      postSkel target := by
  simp [postSkel, h]

theorem map_postSkel_set (es : List HX_Entry) (t : Nat) (y target : HX_Entry)
    (hget : es[t]? = some target) (hskel : postSkel y = postSkel target) :
    (es.set t y).map postSkel = es.map postSkel := by
  rw [List.map_set, hskel]
  apply set_getElem_self
  rw [List.getElem?_map, hget]
  rfl

/-- The C10 precondition for pass (a), in index form. -/
def EventResolves (es : List HX_Entry) : Prop :=
  ∀ (j : Nat) (e : HX_Entry) (d : HX_EventResData),
    es[j]? = some e → e.i_class = .eventResData →
    e.p_data = some (.event d) → (hx_find_index es d.link).isSome

/-- The C10 precondition for pass (b), in index form. -/
def WavResolves (es : List HX_Entry) : Prop :=
  ∀ (j : Nat) (e : HX_Entry) (d : HX_WavResData),
    es[j]? = some e → e.i_class = .wavResData →
    e.p_data = some (.wavres d) → ∀ l ∈ d.links, (hx_find_index es l.cuuid).isSome

theorem getElem_postSkel (es es' : List HX_Entry)
    (h : es'.map postSkel = es.map postSkel) (j : Nat) (e : HX_Entry)
    (hget : es'[j]? = some e) :
    ∃ e2, es[j]? = some e2 ∧ postSkel e2 = postSkel e := by
  have hj : (es'.map postSkel)[j]? = some (postSkel e) := by
    rw [List.getElem?_map, hget]; rfl
  rw [h, List.getElem?_map] at hj
  cases hget2 : es[j]? with
  | none => rw [hget2] at hj; cases hj
  | some e2 =>
      rw [hget2] at hj
      simp only [Option.map_some', Option.some.injEq] at hj
      exact ⟨e2, rfl, hj⟩

theorem eventResolves_transfer (es es' : List HX_Entry)
    (h : es'.map postSkel = es.map postSkel) (H : EventResolves es) :
    EventResolves es' := by
  intro j e d hget hcls hpd
  obtain ⟨e2, hget2, hskel⟩ := getElem_postSkel es es' h j e hget
  simp only [postSkel, Prod.mk.injEq] at hskel
  obtain ⟨hcu, hcl, hev, _⟩ := hskel
  rw [hx_find_index_congr es' es (cuuids_of_postSkel es' es (by
    exact congrArg id h)) d.link]
  · apply H j e2 d hget2 (by rw [hcl, hcls])
    rw [hpd] at hev
    cases hpd2 : e2.p_data with
    | none => rw [hpd2] at hev; cases hev
    | some b2 =>
        rw [hpd2] at hev
        simp only [Option.map_some', Option.some.injEq] at hev
        cases b2 with
        | event d2 =>
            simp only [Option.some.injEq] at hev
            rw [hev]
        | wavres d2 => simp at hev
        | switchres d2 => simp at hev
        | randomres d2 => simp at hev
        | programres d2 => simp at hev
        | wavefile d2 => simp at hev

theorem wavResolves_transfer (es es' : List HX_Entry)
    (h : es'.map postSkel = es.map postSkel) (H : WavResolves es) :
    WavResolves es' := by
  intro j e d hget hcls hpd l hl
  obtain ⟨e2, hget2, hskel⟩ := getElem_postSkel es es' h j e hget
  simp only [postSkel, Prod.mk.injEq] at hskel
  obtain ⟨hcu, hcl, _, hwv⟩ := hskel
  rw [hx_find_index_congr es' es (cuuids_of_postSkel es' es h) l.cuuid]
  rw [hpd] at hwv
  cases hpd2 : e2.p_data with
  | none => rw [hpd2] at hwv; cases hwv
  | some b2 =>
      rw [hpd2] at hwv
      simp only [Option.map_some', Option.some.injEq] at hwv
      cases b2 with
      | event d2 => simp at hwv
      | wavres d2 =>
          simp only [Option.some.injEq] at hwv
          apply H j e2 d2 hget2 (by rw [hcl, hcls])
          · rw [hpd2]
          · rw [hwv]; exact hl
      | switchres d2 => simp at hwv
      | randomres d2 => simp at hwv
      | programres d2 => simp at hwv
      | wavefile d2 => simp at hwv

theorem pass1_skel : ∀ (fuel i : Nat) (es out : List HX_Entry),
    hx_postread_pass1 fuel i es = .ok out → out.map postSkel = es.map postSkel := by
  intro fuel
  induction fuel with
  | zero =>
      intro i es out h
      simp only [hx_postread_pass1] at h
      cases h
      rfl
  | succ fuel ih =>
      intro i es out h
      simp only [hx_postread_pass1] at h
      cases hget : es.get? i with
      | none => rw [hget] at h; simp only at h; cases h; rfl
      | some e =>
          rw [hget] at h
          simp only at h
          by_cases hcls : e.i_class = .eventResData
          · rw [if_pos hcls] at h
            cases hpd : e.p_data with
            | none => rw [hpd] at h; simp only at h; cases h
            | some b =>
                cases b with
                | event d =>
                    rw [hpd] at h
                    simp only at h
                    cases hfi : hx_find_index es d.link with
                    | none => rw [hfi] at h; simp only at h; cases h
                    | some t =>
                        rw [hfi] at h
                        simp only at h
                        cases hgt : es.get? t with
                        | none => rw [hgt] at h; simp only at h; cases h
                        | some target =>
                            rw [hgt] at h
                            simp only at h
                            by_cases htc : target.i_class = .wavResData
                            · rw [if_pos htc] at h
                              cases htp : target.p_data with
                              | none => rw [htp] at h; simp only at h; cases h
                              | some tb =>
                                  cases tb with
                                  | event d2 => rw [htp] at h; simp only at h; cases h
                                  | wavres wd =>
                                      rw [htp] at h
                                      simp only at h
                                      have hout := ih (i + 1) _ out h
                                      rw [hout]
                                      exact map_postSkel_set es t _ target
                                        (by rw [← List.get?_eq_getElem?]; exact hgt)
                                        (postSkel_update_wavres target wd _ htp)
                                  | switchres d2 => rw [htp] at h; simp only at h; cases h
                                  | randomres d2 => rw [htp] at h; simp only at h; cases h
                                  | programres d2 => rw [htp] at h; simp only at h; cases h
                                  | wavefile d2 => rw [htp] at h; simp only at h; cases h
                            · rw [if_neg htc] at h
                              exact ih (i + 1) es out h
                | wavres d => rw [hpd] at h; simp only at h; cases h
                | switchres d => rw [hpd] at h; simp only at h; cases h
                | randomres d => rw [hpd] at h; simp only at h; cases h
                | programres d => rw [hpd] at h; simp only at h; cases h
                | wavefile d => rw [hpd] at h; simp only at h; cases h
          · rw [if_neg hcls] at h
            exact ih (i + 1) es out h

theorem links_skel (parent : List Nat) :
    ∀ (ls : List HX_WavResLink) (es out : List HX_Entry),
      hx_postread_links parent es ls = .ok out → out.map postSkel = es.map postSkel := by
  intro ls
  induction ls with
  | nil =>
      intro es out h
      simp only [hx_postread_links] at h
      cases h
      rfl
  | cons l rest ih =>
      intro es out h
      simp only [hx_postread_links] at h
      cases hfi : hx_find_index es l.cuuid with
      | none => rw [hfi] at h; simp only at h; cases h
      | some t =>
          rw [hfi] at h
          simp only at h
          cases hgt : es.get? t with
          | none => rw [hgt] at h; simp only at h; cases h
          | some target =>
              rw [hgt] at h
              simp only at h
              cases htp : target.p_data with
              | none => rw [htp] at h; simp only at h; cases h
              | some tb =>
                  cases tb with
                  | event d2 => rw [htp] at h; simp only at h; cases h
                  | wavres d2 => rw [htp] at h; simp only at h; cases h
                  | switchres d2 => rw [htp] at h; simp only at h; cases h
                  | randomres d2 => rw [htp] at h; simp only at h; cases h
                  | programres d2 => rw [htp] at h; simp only at h; cases h
                  | wavefile od =>
                      rw [htp] at h
                      simp only at h
                      have hout := ih _ out h
                      rw [hout]
                      exact map_postSkel_set es t _ target
                        (by rw [← List.get?_eq_getElem?]; exact hgt)
                        (postSkel_update_wavefile target od _ htp)

theorem pass2_skel : ∀ (fuel i : Nat) (es out : List HX_Entry),
    hx_postread_pass2 fuel i es = .ok out → out.map postSkel = es.map postSkel := by
  intro fuel
  induction fuel with
  | zero =>
      intro i es out h
      simp only [hx_postread_pass2] at h
      cases h
      rfl
  | succ fuel ih =>
      intro i es out h
      simp only [hx_postread_pass2] at h
      cases hget : es.get? i with
      | none => rw [hget] at h; simp only at h; cases h; rfl
      | some e =>
          rw [hget] at h
          simp only at h
          by_cases hcls : e.i_class = .wavResData
          · rw [if_pos hcls] at h
            cases hpd : e.p_data with
            | none => rw [hpd] at h; simp only at h; cases h
            | some b =>
                cases b with
                | event d => rw [hpd] at h; simp only at h; cases h
                | wavres d =>
                    rw [hpd] at h
                    simp only at h
                    cases hl : hx_postread_links d.res_data.name es d.links with
                    | error err => rw [hl] at h; simp only at h; cases h
                    | ok es1 =>
                        rw [hl] at h
                        simp only at h
                        have h1 := links_skel d.res_data.name d.links es es1 hl
                        have h2 := ih (i + 1) es1 out h
                        rw [h2, h1]
                | switchres d => rw [hpd] at h; simp only at h; cases h
                | randomres d => rw [hpd] at h; simp only at h; cases h
                | programres d => rw [hpd] at h; simp only at h; cases h
                | wavefile d => rw [hpd] at h; simp only at h; cases h
          · rw [if_neg hcls] at h
            exact ih (i + 1) es out h

theorem links_safe (parent : List Nat) :
    ∀ (ls : List HX_WavResLink) (es : List HX_Entry),
      (∀ l ∈ ls, (hx_find_index es l.cuuid).isSome) →
      hx_postread_links parent es ls ≠ .error .nullDeref := by
  intro ls
  induction ls with
  | nil =>
      intro es hres h
      simp only [hx_postread_links] at h
      cases h
  | cons l rest ih =>
      intro es hres h
      simp only [hx_postread_links] at h
      cases hfi : hx_find_index es l.cuuid with
      | none =>
          have hs := hres l (by simp)
          simp [hfi] at hs
      | some t =>
          rw [hfi] at h
          simp only at h
          cases hgt : es.get? t with
          | none =>
              obtain ⟨e, hget, _⟩ := hx_find_index_mem es l.cuuid t hfi
              rw [List.get?_eq_getElem?, hget] at hgt
              cases hgt
          | some target =>
              rw [hgt] at h
              simp only at h
              cases htp : target.p_data with
              | none => rw [htp] at h; simp only at h; cases h
              | some tb =>
                  cases tb with
                  | event d2 => rw [htp] at h; simp only at h; cases h
                  | wavres d2 => rw [htp] at h; simp only at h; cases h
                  | switchres d2 => rw [htp] at h; simp only at h; cases h
                  | randomres d2 => rw [htp] at h; simp only at h; cases h
                  | programres d2 => rw [htp] at h; simp only at h; cases h
                  | wavefile od =>
                      rw [htp] at h
                      simp only at h
                      have hskel := map_postSkel_set es t ({ target with p_data := some (.wavefile { od with name := postread_name parent l.language }) }) target (by rw [← List.get?_eq_getElem?]; exact hgt) (postSkel_update_wavefile target od (postread_name parent l.language) htp)
                      refine ih _ ?_ h
                      intro l2 hl2
                      rw [hx_find_index_congr _ es (cuuids_of_postSkel _ es hskel) l2.cuuid]
                      exact hres l2 (by simp [hl2])

theorem pass1_safe : ∀ (fuel i : Nat) (es : List HX_Entry),
    EventResolves es →
    hx_postread_pass1 fuel i es ≠ .error .nullDeref := by
  intro fuel
  induction fuel with
  | zero =>
      intro i es hres h
      simp only [hx_postread_pass1] at h
      cases h
  | succ fuel ih =>
      intro i es hres h
      simp only [hx_postread_pass1] at h
      cases hget : es.get? i with
      | none => rw [hget] at h; simp only at h; cases h
      | some e =>
          rw [hget] at h
          simp only at h
          by_cases hcls : e.i_class = .eventResData
          · rw [if_pos hcls] at h
            cases hpd : e.p_data with
            | none => rw [hpd] at h; simp only at h; cases h
            | some b =>
                cases b with
                | event d =>
                    rw [hpd] at h
                    simp only at h
                    cases hfi : hx_find_index es d.link with
                    | none =>
                        have hs := hres i e d
                          (by rw [← List.get?_eq_getElem?]; exact hget) hcls hpd
                        simp [hfi] at hs
                    | some t =>
                        rw [hfi] at h
                        simp only at h
                        cases hgt : es.get? t with
                        | none =>
                            obtain ⟨e2, hget2, _⟩ := hx_find_index_mem es d.link t hfi
                            rw [List.get?_eq_getElem?, hget2] at hgt
                            cases hgt
                        | some target =>
                            rw [hgt] at h
                            simp only at h
                            by_cases htc : target.i_class = .wavResData
                            · rw [if_pos htc] at h
                              cases htp : target.p_data with
                              | none => rw [htp] at h; simp only at h; cases h
                              | some tb =>
                                  cases tb with
                                  | event d2 => rw [htp] at h; simp only at h; cases h
                                  | wavres wd =>
                                      rw [htp] at h
                                      simp only at h
                                      have hskel := map_postSkel_set es t ({ target with p_data := some (.wavres { wd with res_data := { wd.res_data with name := buf256 d.name } }) }) target (by rw [← List.get?_eq_getElem?]; exact hgt) (postSkel_update_wavres target wd (buf256 d.name) htp)
                                      exact ih (i + 1) _
                                        (eventResolves_transfer es _ hskel hres) h
                                  | switchres d2 => rw [htp] at h; simp only at h; cases h
                                  | randomres d2 => rw [htp] at h; simp only at h; cases h
                                  | programres d2 => rw [htp] at h; simp only at h; cases h
                                  | wavefile d2 => rw [htp] at h; simp only at h; cases h
                            · rw [if_neg htc] at h
                              exact ih (i + 1) es hres h
                | wavres d => rw [hpd] at h; simp only at h; cases h
                | switchres d => rw [hpd] at h; simp only at h; cases h
                | randomres d => rw [hpd] at h; simp only at h; cases h
                | programres d => rw [hpd] at h; simp only at h; cases h
                | wavefile d => rw [hpd] at h; simp only at h; cases h
          · rw [if_neg hcls] at h
            exact ih (i + 1) es hres h

theorem pass2_safe : ∀ (fuel i : Nat) (es : List HX_Entry),
    WavResolves es →
    hx_postread_pass2 fuel i es ≠ .error .nullDeref := by
  intro fuel
  induction fuel with
  | zero =>
      intro i es hres h
      simp only [hx_postread_pass2] at h
      cases h
  | succ fuel ih =>
      intro i es hres h
      simp only [hx_postread_pass2] at h
      cases hget : es.get? i with
      | none => rw [hget] at h; simp only at h; cases h
      | some e =>
          rw [hget] at h
          simp only at h
          by_cases hcls : e.i_class = .wavResData
          · rw [if_pos hcls] at h
            cases hpd : e.p_data with
            | none => rw [hpd] at h; simp only at h; cases h
            | some b =>
                cases b with
                | event d => rw [hpd] at h; simp only at h; cases h
                | wavres d =>
                    rw [hpd] at h
                    simp only at h
                    cases hl : hx_postread_links d.res_data.name es d.links with
                    | error err =>
                        rw [hl] at h
                        simp only at h
                        cases h
                        exact links_safe d.res_data.name d.links es
                          (fun l hl2 => hres i e d
                            (by rw [← List.get?_eq_getElem?]; exact hget) hcls hpd l hl2)
                          hl
                    | ok es1 =>
                        rw [hl] at h
                        simp only at h
                        have h1 := links_skel d.res_data.name d.links es es1 hl
                        exact ih (i + 1) es1 (wavResolves_transfer es es1 h1 hres) h
                | switchres d => rw [hpd] at h; simp only at h; cases h
                | randomres d => rw [hpd] at h; simp only at h; cases h
                | programres d => rw [hpd] at h; simp only at h; cases h
                | wavefile d => rw [hpd] at h; simp only at h; cases h
          · rw [if_neg hcls] at h
            exact ih (i + 1) es hres h

theorem eventResolves_of_bool (es : List HX_Entry) (h : eventLinksResolve es = true) :
    EventResolves es := by
  intro j e d hget hcls hpd
  simp only [eventLinksResolve, List.all_eq_true] at h
  have he : e ∈ es := by
    rw [List.mem_iff_getElem?]
    exact ⟨j, hget⟩
  have hs := h e he
  rw [if_pos hcls, hpd] at hs
  simpa using hs

theorem wavResolves_of_bool (es : List HX_Entry) (h : wavresLinksResolve es = true) :
    WavResolves es := by
  intro j e d hget hcls hpd l hl
  simp only [wavresLinksResolve, List.all_eq_true] at h
  have he : e ∈ es := by
    rw [List.mem_iff_getElem?]
    exact ⟨j, hget⟩
  have hs := h e he
  rw [if_pos hcls, hpd] at hs
  simp only at hs
  simp only [List.all_eq_true] at hs
  exact hs l hl

theorem wfSkel_update_wavefile (target : HX_Entry) (od : HX_WaveFileIdObj) (nm : List Nat)
    (h : target.p_data = some (.wavefile od)) :
    wfSkel { target with p_data := some (.wavefile { od with name := nm }) } =
      wfSkel target := by
  simp [wfSkel, h]

theorem map_wfSkel_set (es : List HX_Entry) (t : Nat) (y target : HX_Entry)
    (hget : es[t]? = some target) (hskel : wfSkel y = wfSkel target) :
    (es.set t y).map wfSkel = es.map wfSkel := by
  rw [List.map_set, hskel]
  apply set_getElem_self
  rw [List.getElem?_map, hget]
  rfl

theorem map_cuuid_wfSkel : ∀ (xs : List HX_Entry),
    xs.map (HX_Entry.i_cuuid ∘ wfSkel) = xs.map HX_Entry.i_cuuid := by
  intro xs
  induction xs with
  | nil => rfl
  | cons x xs ih =>
      simp only [List.map_cons, ih]
      rfl

theorem cuuids_of_wfSkel (es es' : List HX_Entry)
    (h : es.map wfSkel = es'.map wfSkel) :
    es.map HX_Entry.i_cuuid = es'.map HX_Entry.i_cuuid := by
  have hc := congrArg (List.map HX_Entry.i_cuuid) h
  rw [List.map_map, List.map_map] at hc
  rw [map_cuuid_wfSkel, map_cuuid_wfSkel] at hc
  exact hc

theorem getElem_wfSkel (es es' : List HX_Entry)
    (h : es'.map wfSkel = es.map wfSkel) (j : Nat) (e : HX_Entry)
    (hget : es'[j]? = some e) :
    ∃ e2, es[j]? = some e2 ∧ wfSkel e2 = wfSkel e := by
  have hj : (es'.map wfSkel)[j]? = some (wfSkel e) := by
    rw [List.getElem?_map, hget]; rfl
  rw [h, List.getElem?_map] at hj
  cases hget2 : es[j]? with
  | none => rw [hget2] at hj; cases hj
  | some e2 =>
      rw [hget2] at hj
      simp only [Option.map_some', Option.some.injEq] at hj
      exact ⟨e2, rfl, hj⟩

theorem wfSkel_wavres (e2 e : HX_Entry) (h : wfSkel e2 = wfSkel e)
    (d : HX_WavResData) (hp : e.p_data = some (.wavres d)) :
    e2.p_data = some (.wavres d) := by
  have hpp := congrArg HX_Entry.p_data h
  simp only [wfSkel] at hpp
  rw [hp] at hpp
  cases hp2 : e2.p_data with
  | none => rw [hp2] at hpp; simp at hpp
  | some b2 =>
      rw [hp2] at hpp
      simp only [Option.map_some', Option.some.injEq] at hpp
      cases b2 with
      | event d2 => simp at hpp
      | wavres d2 =>
          simp only [HX_Body.wavres.injEq] at hpp
          rw [hpp]
      | switchres d2 => simp at hpp
      | randomres d2 => simp at hpp
      | programres d2 => simp at hpp
      | wavefile od2 => simp at hpp

theorem refPair_transfer (es es' : List HX_Entry)
    (h : es'.map wfSkel = es.map wfSkel) (j k : Nat) (l : HX_WavResLink)
    (hr : RefPair es' j k l) :
    RefPair es j k l ∧ parentNameAt es j = parentNameAt es' j := by
  obtain ⟨e, d, hget, hcls, hpd, hl, hfi⟩ := hr
  rw [List.get?_eq_getElem?] at hget
  obtain ⟨e2, hget2, hskel⟩ := getElem_wfSkel es es' h j e hget
  have hcls2 : e2.i_class = e.i_class := by
    have hx := congrArg HX_Entry.i_class hskel
    simpa [wfSkel] using hx
  have hpd2 : e2.p_data = some (.wavres d) := wfSkel_wavres e2 e hskel d hpd
  have hget2' : es.get? j = some e2 := by rw [List.get?_eq_getElem?]; exact hget2
  have hget' : es'.get? j = some e := by rw [List.get?_eq_getElem?]; exact hget
  refine ⟨⟨e2, d, hget2', by rw [hcls2, hcls], hpd2, hl, ?_⟩, ?_⟩
  · rw [hx_find_index_congr es es' (cuuids_of_wfSkel es es' h.symm) l.cuuid]
    exact hfi
  · simp [parentNameAt, List.get?_eq_getElem?, hget2, hget, hpd2, hpd]

theorem wfNameAt_set_self (es : List HX_Entry) (t : Nat) (target : HX_Entry)
    (od : HX_WaveFileIdObj) (nm : List Nat) (hget : es.get? t = some target) :
    wfNameAt (es.set t { target with p_data := some (.wavefile
      { od with name := nm }) }) t = some nm := by
  have hlt : t < es.length := by
    rw [List.get?_eq_getElem?] at hget
    rcases List.getElem?_eq_some_iff.mp hget with ⟨hlt, _⟩
    exact hlt
  unfold wfNameAt
  rw [List.get?_eq_getElem?, List.getElem?_set, if_pos rfl, if_pos hlt]

theorem wfNameAt_set_ne (es : List HX_Entry) (t k : Nat) (y : HX_Entry)
    (hk : k ≠ t) : wfNameAt (es.set t y) k = wfNameAt es k := by
  unfold wfNameAt
  rw [List.get?_eq_getElem?, List.get?_eq_getElem?, List.getElem?_set,
    if_neg (fun hkt => hk hkt.symm)]

theorem links_wfskel (parent : List Nat) :
    ∀ (ls : List HX_WavResLink) (es out : List HX_Entry),
      hx_postread_links parent es ls = .ok out → out.map wfSkel = es.map wfSkel := by
  intro ls
  induction ls with
  | nil =>
      intro es out h
      simp only [hx_postread_links] at h
      cases h
      rfl
  | cons l rest ih =>
      intro es out h
      simp only [hx_postread_links] at h
      cases hfi : hx_find_index es l.cuuid with
      | none => rw [hfi] at h; simp only at h; cases h
      | some t =>
          rw [hfi] at h
          simp only at h
          cases hgt : es.get? t with
          | none => rw [hgt] at h; simp only at h; cases h
          | some target =>
              rw [hgt] at h
              simp only at h
              cases htp : target.p_data with
              | none => rw [htp] at h; simp only at h; cases h
              | some tb =>
                  cases tb with
                  | event d2 => rw [htp] at h; simp only at h; cases h
                  | wavres d2 => rw [htp] at h; simp only at h; cases h
                  | switchres d2 => rw [htp] at h; simp only at h; cases h
                  | randomres d2 => rw [htp] at h; simp only at h; cases h
                  | programres d2 => rw [htp] at h; simp only at h; cases h
                  | wavefile od =>
                      rw [htp] at h
                      simp only at h
                      have hout := ih _ out h
                      rw [hout]
                      exact map_wfSkel_set es t _ target
                        (by rw [← List.get?_eq_getElem?]; exact hgt)
                        (wfSkel_update_wavefile target od _ htp)

theorem pass2_wfskel : ∀ (fuel i : Nat) (es out : List HX_Entry),
    hx_postread_pass2 fuel i es = .ok out → out.map wfSkel = es.map wfSkel := by
  intro fuel
  induction fuel with
  | zero =>
      intro i es out h
      simp only [hx_postread_pass2] at h
      cases h
      rfl
  | succ fuel ih =>
      intro i es out h
      simp only [hx_postread_pass2] at h
      cases hget : es.get? i with
      | none => rw [hget] at h; simp only at h; cases h; rfl
      | some e =>
          rw [hget] at h
          simp only at h
          by_cases hcls : e.i_class = .wavResData
          · rw [if_pos hcls] at h
            cases hpd : e.p_data with
            | none => rw [hpd] at h; simp only at h; cases h
            | some b =>
                cases b with
                | event d => rw [hpd] at h; simp only at h; cases h
                | wavres d =>
                    rw [hpd] at h
                    simp only at h
                    cases hl : hx_postread_links d.res_data.name es d.links with
                    | error err => rw [hl] at h; simp only at h; cases h
                    | ok es1 =>
                        rw [hl] at h
                        simp only at h
                        have h1 := links_wfskel d.res_data.name d.links es es1 hl
                        have h2 := ih (i + 1) es1 out h
                        rw [h2, h1]
                | switchres d => rw [hpd] at h; simp only at h; cases h
                | randomres d => rw [hpd] at h; simp only at h; cases h
                | programres d => rw [hpd] at h; simp only at h; cases h
                | wavefile d => rw [hpd] at h; simp only at h; cases h
          · rw [if_neg hcls] at h
            exact ih (i + 1) es out h

theorem links_naming (p : List Nat) :
    ∀ (ls : List HX_WavResLink) (es out : List HX_Entry),
      hx_postread_links p es ls = .ok out → ∀ k,
        (wfNameAt out k = wfNameAt es k ∧ ∀ l ∈ ls, hx_find_index es l.cuuid ≠ some k)
        ∨ (∃ l ∈ ls, hx_find_index es l.cuuid = some k ∧
            wfNameAt out k = some (postread_name p l.language)) := by
  intro ls
  induction ls with
  | nil =>
      intro es out h k
      simp only [hx_postread_links] at h
      cases h
      exact Or.inl ⟨rfl, by simp⟩
  | cons l rest ih =>
      intro es out h k
      simp only [hx_postread_links] at h
      cases hfi : hx_find_index es l.cuuid with
      | none => rw [hfi] at h; simp only at h; cases h
      | some t =>
          rw [hfi] at h
          simp only at h
          cases hgt : es.get? t with
          | none => rw [hgt] at h; simp only at h; cases h
          | some target =>
              rw [hgt] at h
              simp only at h
              cases htp : target.p_data with
              | none => rw [htp] at h; simp only at h; cases h
              | some tb =>
                  cases tb with
                  | event d2 => rw [htp] at h; simp only at h; cases h
                  | wavres d2 => rw [htp] at h; simp only at h; cases h
                  | switchres d2 => rw [htp] at h; simp only at h; cases h
                  | randomres d2 => rw [htp] at h; simp only at h; cases h
                  | programres d2 => rw [htp] at h; simp only at h; cases h
                  | wavefile od =>
                      rw [htp] at h
                      simp only at h
                      have hskel := map_wfSkel_set es t ({ target with p_data := some (.wavefile { od with name := postread_name p l.language }) }) target (by rw [← List.get?_eq_getElem?]; exact hgt) (wfSkel_update_wavefile target od (postread_name p l.language) htp)
                      have hidx : ∀ c, hx_find_index (es.set t ({ target with p_data := some (.wavefile { od with name := postread_name p l.language }) })) c = hx_find_index es c :=
                        fun c => hx_find_index_congr _ es (cuuids_of_wfSkel _ es hskel) c
                      rcases ih _ out h k with ⟨hname, hnone⟩ | ⟨l2, hl2, hfi2, hnm2⟩
                      · by_cases hk : k = t
                        · subst hk
                          refine Or.inr ⟨l, by simp, hfi, ?_⟩
                          rw [hname]
                          exact wfNameAt_set_self es k target od
                            (postread_name p l.language) hgt
                        · refine Or.inl ⟨?_, ?_⟩
                          · rw [hname]
                            exact wfNameAt_set_ne es t k _ hk
                          · intro l2 hl2
                            rcases List.mem_cons.mp hl2 with hh | hr
                            · subst hh
                              rw [hfi]
                              intro hc
                              exact hk (Option.some.inj hc).symm
                            · intro hc
                              exact hnone l2 hr (by rw [hidx]; exact hc)
                      · refine Or.inr ⟨l2, List.mem_cons_of_mem l hl2, ?_, hnm2⟩
                        rw [← hidx]
                        exact hfi2

theorem pass2_naming : ∀ (fuel i : Nat) (es out : List HX_Entry),
    hx_postread_pass2 fuel i es = .ok out → es.length ≤ i + fuel → ∀ k,
      (wfNameAt out k = wfNameAt es k ∧ ∀ j l, i ≤ j → ¬ RefPair es j k l)
      ∨ (∃ j l, i ≤ j ∧ RefPair es j k l ∧
          wfNameAt out k = some (postread_name (parentNameAt es j) l.language)) := by
  intro fuel
  induction fuel with
  | zero =>
      intro i es out h hlen k
      simp only [hx_postread_pass2] at h
      cases h
      refine Or.inl ⟨rfl, ?_⟩
      intro j l hij hr
      obtain ⟨e, d, hget, _, _, _, _⟩ := hr
      rw [List.get?_eq_getElem?] at hget
      rcases List.getElem?_eq_some_iff.mp hget with ⟨hlt, _⟩
      omega
  | succ fuel ih =>
      intro i es out h hlen k
      simp only [hx_postread_pass2] at h
      cases hget : es.get? i with
      | none =>
          rw [hget] at h
          simp only at h
          cases h
          refine Or.inl ⟨rfl, ?_⟩
          intro j l hij hr
          obtain ⟨e, d, hget2, _, _, _, _⟩ := hr
          rw [List.get?_eq_getElem?] at hget2
          rcases List.getElem?_eq_some_iff.mp hget2 with ⟨hlt, _⟩
          rw [List.get?_eq_getElem?] at hget
          have hle := List.getElem?_eq_none_iff.mp hget
          omega
      | some e =>
          rw [hget] at h
          simp only at h
          by_cases hcls : e.i_class = .wavResData
          · rw [if_pos hcls] at h
            cases hpd : e.p_data with
            | none => rw [hpd] at h; simp only at h; cases h
            | some b =>
                cases b with
                | event d => rw [hpd] at h; simp only at h; cases h
                | wavres d =>
                    rw [hpd] at h
                    simp only at h
                    cases hl : hx_postread_links d.res_data.name es d.links with
                    | error err => rw [hl] at h; simp only at h; cases h
                    | ok es1 =>
                        rw [hl] at h
                        simp only at h
                        have hskel1 := links_wfskel d.res_data.name d.links es es1 hl
                        have hlen1 : es1.length = es.length := by
                          have hx := congrArg List.length hskel1
                          simpa using hx
                        rcases ih (i + 1) es1 out h (by omega) k with
                          ⟨hname1, hno1⟩ | ⟨j1, l1, hij1, hr1, hnm1⟩
                        · rcases links_naming d.res_data.name d.links es es1 hl k with
                            ⟨hname0, hnol⟩ | ⟨l0, hl0, hfi0, hnm0⟩
                          · refine Or.inl ⟨hname1.trans hname0, ?_⟩
                            intro j l hij hr
                            by_cases hji : j = i
                            · subst hji
                              obtain ⟨e2, d2, hget2, _, hpd2, hlm, hfi2⟩ := hr
                              rw [hget] at hget2
                              simp only [Option.some.injEq] at hget2
                              subst hget2
                              rw [hpd] at hpd2
                              simp only [Option.some.injEq, HX_Body.wavres.injEq] at hpd2
                              subst hpd2
                              exact hnol l hlm hfi2
                            · have hr1' := (refPair_transfer es1 es hskel1.symm j k l hr).1
                              exact hno1 j l (by omega) hr1'
                          · refine Or.inr ⟨i, l0, Nat.le_refl i,
                              ⟨e, d, hget, hcls, hpd, hl0, hfi0⟩, ?_⟩
                            rw [hname1, hnm0]
                            have hpar : parentNameAt es i = d.res_data.name := by
                              have hget' : es[i]? = some e := by
                                rw [← List.get?_eq_getElem?]; exact hget
                              simp [parentNameAt, List.get?_eq_getElem?, hget', hpd]
                            rw [hpar]
                        · obtain ⟨hr1', hpar1⟩ :=
                            refPair_transfer es es1 hskel1 j1 k l1 hr1
                          refine Or.inr ⟨j1, l1, by omega, hr1', ?_⟩
                          rw [hpar1]
                          exact hnm1
                | switchres d => rw [hpd] at h; simp only at h; cases h
                | randomres d => rw [hpd] at h; simp only at h; cases h
                | programres d => rw [hpd] at h; simp only at h; cases h
                | wavefile d => rw [hpd] at h; simp only at h; cases h
          · rw [if_neg hcls] at h
            rcases ih (i + 1) es out h (by omega) k with
              ⟨hname1, hno1⟩ | ⟨j1, l1, hij1, hr1, hnm1⟩
            · refine Or.inl ⟨hname1, ?_⟩
              intro j l hij hr
              by_cases hji : j = i
              · subst hji
                obtain ⟨e2, d2, hget2, hcls2, _, _, _⟩ := hr
                rw [hget] at hget2
                simp only [Option.some.injEq] at hget2
                subst hget2
                exact hcls hcls2
              · exact hno1 j l (by omega) hr
            · exact Or.inr ⟨j1, l1, by omega, hr1, hnm1⟩

end PostreadLemmas

/-- **C10.**  `hx_postread` dereferences the result of
`hx_context_find_entry` without a NULL check; for every container in
which every EventResData link CUUID (relevant on the HXG variant, where
pass (a) runs) and every CUUID in every WavResData language link resolves
to an entry of the container, all CUUID lookups performed by the
post-read pass succeed and the modelled NULL-dereference outcome is
unreachable.  (A container violating the precondition reaches the
`.error .nullDeref` branches of the model, which are exactly the
unchecked dereferences of the C code.) -/
theorem hx_postread_lookup_safety (v : HX_Version) (entries : List HX_Entry)
    (h1 : v = .hxg → eventLinksResolve entries = true)
    (h2 : wavresLinksResolve entries = true) :
    hx_postread v entries ≠ .error (.nullDeref) := by
  intro h
  simp only [hx_postread] at h
  by_cases hv : v = .hxg
  · rw [if_pos hv] at h
    cases hp1 : hx_postread_pass1 entries.length 0 entries with
    | error err =>
        rw [hp1] at h
        simp only at h
        cases h
        exact pass1_safe entries.length 0 entries
          (eventResolves_of_bool entries (h1 hv)) hp1
    | ok es1 =>
        rw [hp1] at h
        simp only at h
        have hskel := pass1_skel entries.length 0 entries es1 hp1
        exact pass2_safe es1.length 0 es1
          (wavResolves_transfer entries es1 hskel (wavResolves_of_bool entries h2)) h
  · rw [if_neg hv] at h
    simp only at h
    exact pass2_safe entries.length 0 entries (wavResolves_of_bool entries h2) h

/-- Witness for C10: a three-entry HXG container (event → wavres → wave
file) in which all links resolve. -/
theorem hx_postread_lookup_safety_witness :
    hx_postread .hxg
      [{ i_cuuid := 1, i_class := .eventResData,
         p_data := some (.event ⟨0, [65], 0, 2, 0, 0, 0, 0⟩),
         num_links := 0, links := [], language_links := [],
         file_offset := 0, file_size := 0, tmp_file_size := 0 },
       { i_cuuid := 2, i_class := .wavResData,
         p_data := some (.wavres ⟨⟨0, 0, 0, 2, List.replicate 256 0⟩, 0, [⟨.en, 3⟩]⟩),
         num_links := 0, links := [], language_links := [],
         file_offset := 0, file_size := 0, tmp_file_size := 0 },
       { i_cuuid := 3, i_class := .waveFileIdObj,
         p_data := some (.wavefile ⟨⟨0, 0, 0, 0⟩, List.replicate 256 0, [], 0, 0,
           ⟨0, 0, .little, 0, 0, 0, 0, []⟩, ⟨0, 0, 0, 0, 0, 0, 0, 0, 0, 0, 0, 0, 0⟩,
           none, 0⟩),
         num_links := 0, links := [], language_links := [],
         file_offset := 0, file_size := 0, tmp_file_size := 0 }] ≠
      .error (.nullDeref) :=
  hx_postread_lookup_safety .hxg _ (fun _ => by decide) (by decide)

/-- **C7** (amended).  After `hx_postread` succeeds, every entry
referenced by some WavResData's language-link list holds a WaveFileIdObj
whose name buffer equals `postread_name parent tag` — the
`snprintf("%s_%s", parent, hx_language_name(tag))` image, truncated to
255 bytes — for ONE of the WavResData/link pairs referencing it (the last
in iteration order: each pair's write overwrites the previous).  The
language tag is drawn from DE/EN/ES/FR/IT/Unknown Language by
construction of `postread_name`. -/
theorem hx_postread_naming (v : HX_Version) (entries out : List HX_Entry)
    (hok : hx_postread v entries = .ok out) (j k : Nat) (l : HX_WavResLink)
    (href : RefPair out j k l) :
    ∃ j2 l2, RefPair out j2 k l2 ∧
      wfNameAt out k = some (postread_name (parentNameAt out j2) l2.language) := by
  have hpick : ∃ es1, hx_postread_pass2 es1.length 0 es1 = .ok out := by
    simp only [hx_postread] at hok
    by_cases hv : v = .hxg
    · rw [if_pos hv] at hok
      cases hp1 : hx_postread_pass1 entries.length 0 entries with
      | error err => rw [hp1] at hok; simp only at hok; cases hok
      | ok es1 => rw [hp1] at hok; simp only at hok; exact ⟨es1, hok⟩
    · rw [if_neg hv] at hok
      simp only at hok
      exact ⟨entries, hok⟩
  obtain ⟨es1, h2⟩ := hpick
  have hskel := pass2_wfskel es1.length 0 es1 out h2
  obtain ⟨hr1, hpar1⟩ := refPair_transfer es1 out hskel j k l href
  rcases pass2_naming es1.length 0 es1 out h2 (by omega) k with
    ⟨hname, hno⟩ | ⟨j2, l2, _, hr2, hnm⟩
  · exact absurd hr1 (hno j l (Nat.zero_le j))
  · obtain ⟨hr2', hpar2⟩ := refPair_transfer out es1 hskel.symm j2 k l2 hr2
    refine ⟨j2, l2, hr2', ?_⟩
    rw [hpar2]
    exact hnm

/-- Counterexample for C7's per-pair reading: two WavResData entries
(named "A" and "B") both reference the same WaveFileIdObj through an EN
language link.  `hx_postread` succeeds; the wave file's final name is the
image of the second pair, so the first referencing pair's
"<parent>_<LL>" formula does not match the final name. -/
theorem hx_postread_naming_counterexample :
    hx_postread .hxc [exWavres 1 (buf256 [65]) 3, exWavres 2 (buf256 [66]) 3,
        exWavefile 3 (List.replicate 256 0)] =
      .ok [exWavres 1 (buf256 [65]) 3, exWavres 2 (buf256 [66]) 3,
        exWavefile 3 (postread_name (buf256 [66]) .en)] ∧
    RefPair [exWavres 1 (buf256 [65]) 3, exWavres 2 (buf256 [66]) 3,
        exWavefile 3 (postread_name (buf256 [66]) .en)] 0 2 ⟨.en, 3⟩ ∧
    wfNameAt [exWavres 1 (buf256 [65]) 3, exWavres 2 (buf256 [66]) 3,
        exWavefile 3 (postread_name (buf256 [66]) .en)] 2 ≠
      some (postread_name (parentNameAt [exWavres 1 (buf256 [65]) 3,
        exWavres 2 (buf256 [66]) 3,
        exWavefile 3 (postread_name (buf256 [66]) .en)] 0) HX_Language.en) :=
  ⟨rfl, ⟨exWavres 1 (buf256 [65]) 3, _, rfl, rfl, rfl, by decide, by decide⟩,
    by decide⟩

/-- Witness for C7 at a two-entry container: one WavResData named "A"
with an EN link to one WaveFileIdObj. -/
theorem hx_postread_naming_witness :
    ∃ j2 l2, RefPair [exWavres 1 (buf256 [65]) 2,
        exWavefile 2 (postread_name (buf256 [65]) .en)] j2 1 l2 ∧
      wfNameAt [exWavres 1 (buf256 [65]) 2,
          exWavefile 2 (postread_name (buf256 [65]) .en)] 1 =
        some (postread_name (parentNameAt [exWavres 1 (buf256 [65]) 2,
          exWavefile 2 (postread_name (buf256 [65]) .en)] j2) l2.language) :=
  hx_postread_naming .hxc
    [exWavres 1 (buf256 [65]) 2, exWavefile 2 (List.replicate 256 0)]
    [exWavres 1 (buf256 [65]) 2, exWavefile 2 (postread_name (buf256 [65]) .en)]
    rfl 0 1 ⟨.en, 2⟩
    ⟨exWavres 1 (buf256 [65]) 2, _, rfl, rfl, rfl, by decide, by decide⟩

/-- The byte content `hx_write` produces for `ctrE1` from offset 4 on:
the 61-byte body (written sequentially from offset 4), then the 57-byte
type-2 index — whose record still carries the stale file offset 200. -/
def ctrPayload : List Nat := [13, 0, 0, 0, 67, 69, 118, 101, 110, 116, 82, 101, 115, 68, 97, 116, 97, 0, 0, 0, 0, 17, 0, 0, 0, 0, 0, 0, 0, 0, 0, 0, 0, 0, 0, 0, 0, 0, 0, 0, 0, 0, 0, 0, 0, 0, 0, 0, 0, 0, 0, 0, 0, 0, 0, 0, 0, 0, 0, 0, 0, 73, 78, 68, 88, 2, 0, 0, 0, 1, 0, 0, 0, 13, 0, 0, 0, 67, 69, 118, 101, 110, 116, 82, 101, 115, 68, 97, 116, 97, 0, 0, 0, 0, 17, 0, 0, 0, 200, 0, 0, 0, 61, 0, 0, 0, 0, 0, 0, 0, 0, 0, 0, 0, 0, 0, 0, 0]

/-- The stream `hx_write` returns for `ctrE1`: payload from offset 4 and
the backpatched index offset 65 at position 0. -/
def ctrWS : stream_t :=
  { mode := .write, size := 122, pos := 4, endianness := .little,
    buf := writeBytes (writeBytes (fun _ => 0) 4 ctrPayload) 0 [65, 0, 0, 0] }

set_option maxRecDepth 4000 in
/-- Evaluation of the `hx_write` pipeline on `ctrE1`. -/
theorem hx_write_ctrE1 : hx_write extEnvNone .hxc ctrE1 .little = .ok ctrWS := rfl

set_option maxRecDepth 4000 in
/-- Evaluation of `hx_read` on the buffer `hx_write` produced: the index
record sends the body parse to stale offset 200, which holds zero
padding, so the class-name check fails and the body is dropped. -/
theorem hx_reread_ctr :
    hx_read extEnvNone .hxc (stream_create ctrWS.buf ctrWS.size .read ctrWS.endianness) =
      .ok ctrE2 := rfl

/-- **C1.**  Failing input for the round-trip property: `ctrFile` is a
valid HXC container (its read succeeds and fully parses its one
EventResData entry, `ctrE1`), but `hx_write` records each entry's STALE
`_file_offset` — the offset the body had in the source file (200) — in
the index while actually writing the body at offset 4, so re-reading the
written buffer seeks into zero padding, the class-name check of
`hx_entry_rw` fails, and the entry comes back with no body (`ctrE2`):
the round-trip loses the body contents. -/
theorem hx_roundtrip_failing_input :
    hx_read extEnvNone .hxc (stream_create (bufOfList ctrFile) 261 .read .little) =
      .ok ctrE1 ∧
    hx_rewrite_read extEnvNone .hxc ctrE1 = .ok ctrE2 ∧
    ctrE2 ≠ ctrE1 := by
  refine ⟨rfl, ?_, by decide⟩
  unfold hx_rewrite_read
  rw [show hx_version_endianness .hxc = .little from rfl, hx_write_ctrE1]
  exact hx_reread_ctr

/-- **C3.**  On every read stream, `hx_read` fails with the
invalid-header error when the four bytes at the index offset are not
`"INDX"`; with the invalid-index-type error when the magic matches but
the type word is neither 1 nor 2; and with the empty-file error when
magic and type are in order but the entry count word is 0.  Each failure
is decided by the four header words alone, before the entry loop runs,
and the error return carries no entries. -/
theorem hx_read_header_errors (env : ExtEnv) (v : HX_Version) (s : stream_t)
    (hm : s.mode = .read) :
    (index_code_of s ≠ 0x58444E49 → hx_read env v s = .error .invalidHeader) ∧
    (index_code_of s = 0x58444E49 → index_type_of s ≠ 1 → index_type_of s ≠ 2 →
      hx_read env v s = .error .invalidIndexType) ∧
    (index_code_of s = 0x58444E49 → (index_type_of s = 1 ∨ index_type_of s = 2) →
      num_entries_of s = 0 → hx_read env v s = .error .emptyFile) := by
  obtain ⟨m, sz, p, e, B⟩ := s
  simp only at hm
  subst hm
  simp only [index_code_of, index_type_of, num_entries_of, index_offset_of]
  simp only [hx_read, stream_rw32_read, stream_seek, stream_advance]
  refine ⟨fun hc => ?_, fun hc ht1 ht2 => ?_, fun hc ht hn => ?_⟩
  · rw [if_pos hc]
  · rw [if_neg (fun h => h hc), if_pos ⟨ht1, ht2⟩]
  · rw [if_neg (fun h => h hc),
      if_neg (fun hp => match ht with | Or.inl h1 => hp.1 h1 | Or.inr h2 => hp.2 h2),
      if_pos hn]

/-- Witness for C3 at a concrete stream whose index magic is wrong (the
buffer is all zeros): the header-check conjunction holds there. -/
theorem hx_read_header_errors_witness :
    (index_code_of (stream_create (fun _ => 0) 16 .read .little) ≠ 0x58444E49 →
      hx_read extEnvNone .hxc (stream_create (fun _ => 0) 16 .read .little) =
        .error .invalidHeader) ∧
    (index_code_of (stream_create (fun _ => 0) 16 .read .little) = 0x58444E49 →
      index_type_of (stream_create (fun _ => 0) 16 .read .little) ≠ 1 →
      index_type_of (stream_create (fun _ => 0) 16 .read .little) ≠ 2 →
      hx_read extEnvNone .hxc (stream_create (fun _ => 0) 16 .read .little) =
        .error .invalidIndexType) ∧
    (index_code_of (stream_create (fun _ => 0) 16 .read .little) = 0x58444E49 →
      (index_type_of (stream_create (fun _ => 0) 16 .read .little) = 1 ∨
        index_type_of (stream_create (fun _ => 0) 16 .read .little) = 2) →
      num_entries_of (stream_create (fun _ => 0) 16 .read .little) = 0 →
      hx_read extEnvNone .hxc (stream_create (fun _ => 0) 16 .read .little) =
        .error .emptyFile) :=
  hx_read_header_errors extEnvNone .hxc (stream_create (fun _ => 0) 16 .read .little) rfl

end HX2
